import Mathlib

/-!
Verification of the ezhttp HTTP/1.1 toolkit (Rust) against its specification.

Modelling conventions:
* Rust `String` / `&str` / `Vec<u8>` values are modelled as `List Nat`
  (their UTF-8 byte sequences, each byte < 256).  Rust's `str` pattern
  operations (`split_once`, `split`, `splitn`, `starts_with`, slicing)
  are byte-level substring operations in Rust itself, so the embedding is
  literal.  `String::from_utf8` checks are modelled by the `isUtf8`
  validator.
* `String::to_lowercase` is modelled as ASCII lowercasing (`toLower`);
  every header name appearing in the claims is ASCII, where the two agree.
* `str::trim` is modelled as ASCII-whitespace trimming; all trimmed data
  in the claims is ASCII.
* Blocking streams are modelled as the list of bytes the peer will ever
  send (`List Nat`); reading consumes a prefix, end of list is EOF.
* Rust panics (slice out of bounds, index out of bounds, arithmetic
  underflow) are modelled explicitly by the `RError.panic` result.
-/

set_option maxRecDepth 100000

/-- Rust byte-string: a UTF-8 (or arbitrary) byte sequence. -/
abbrev BStr := List Nat

/-- Bytes of an ASCII Lean string literal (used only for ASCII literals,
where Unicode code point = byte value). -/
def bytes (s : String) : BStr := s.data.map Char.toNat

/-- Rust `str::split_once(pat)`: splits at the first occurrence of `pat`,
returning the parts before and after it. -/
def splitOnce (s pat : BStr) : Option (BStr × BStr) :=
  match s with
  | [] => if pat.isPrefixOf ([] : BStr) then some ([], []) else none
  | c :: rest =>
    if pat.isPrefixOf (c :: rest) then some ([], (c :: rest).drop pat.length)
    else (splitOnce rest pat).map (fun ab => (c :: ab.1, ab.2))

/-- Fuelled worker for `splitAll` (fuel only to make recursion structural;
`splitAll` always passes enough fuel). -/
def splitAllF : Nat → BStr → BStr → List BStr
  | 0, s, _ => [s]
  | f + 1, s, pat =>
    match splitOnce s pat with
    | some (a, b) => a :: splitAllF f b pat
    | none => [s]

/-- Rust `str::split(pat)` collected to a list (for nonempty `pat`). -/
def splitAll (s pat : BStr) : List BStr := splitAllF (s.length + 1) s pat

/-- Rust `str::splitn(n, pat)` collected to a list. -/
def splitN : Nat → BStr → BStr → List BStr
  | 0, _, _ => []
  | 1, s, _ => [s]
  | n + 2, s, pat =>
    match splitOnce s pat with
    | some (a, b) => a :: splitN (n + 1) b pat
    | none => [s]

/-- ASCII whitespace, as recognised by Rust `char::is_whitespace`
(restricted to ASCII; all trimmed data in the claims is ASCII). -/
def isWs (b : Nat) : Bool := b == 32 || b == 9 || b == 10 || b == 11 || b == 12 || b == 13

/-- Rust `str::trim` (ASCII fragment). -/
def trim (s : BStr) : BStr := ((s.dropWhile isWs).reverse.dropWhile isWs).reverse

/-- Rust `String::to_lowercase` (ASCII fragment: maps A-Z to a-z). -/
def toLower (s : BStr) : BStr := s.map (fun b => if 65 ≤ b && b ≤ 90 then b + 32 else b)

/-- Is `b` a UTF-8 continuation byte. -/
def isCont (b : Nat) : Bool := 0x80 ≤ b && b ≤ 0xBF

/-- Constraint on the second byte of a 3-byte UTF-8 sequence headed by `b`. -/
def utf8Mid3 (b c : Nat) : Bool :=
  isCont c && (b != 0xE0 || 0xA0 ≤ c) && (b != 0xED || c ≤ 0x9F)

/-- Constraint on the second byte of a 4-byte UTF-8 sequence headed by `b`. -/
def utf8Mid4 (b c : Nat) : Bool :=
  isCont c && (b != 0xF0 || 0x90 ≤ c) && (b != 0xF4 || c ≤ 0x8F)

/-- RFC 3629 UTF-8 validity of a byte sequence: models Rust
`String::from_utf8(..).is_ok()`. -/
def isUtf8 : BStr → Bool
  | [] => true
  | b :: r =>
    if b ≤ 0x7F then isUtf8 r
    else if b < 0xC2 then false
    else if b ≤ 0xDF then
      match r with
      | c :: r2 => isCont c && isUtf8 r2
      | [] => false
    else if b ≤ 0xEF then
      match r with
      | c :: d :: r3 => utf8Mid3 b c && isCont d && isUtf8 r3
      | _ => false
    else if b ≤ 0xF4 then
      match r with
      | c :: d :: e :: r4 => utf8Mid4 b c && isCont d && isCont e && isUtf8 r4
      | _ => false
    else false

/-- Value of an ASCII decimal digit byte. -/
def decDigit (b : Nat) : Option Nat := if 48 ≤ b && b ≤ 57 then some (b - 48) else none

/-- Value of an ASCII hexadecimal digit byte (both cases). -/
def hexDigit (b : Nat) : Option Nat :=
  if 48 ≤ b && b ≤ 57 then some (b - 48)
  else if 97 ≤ b && b ≤ 102 then some (b - 87)
  else if 65 ≤ b && b ≤ 70 then some (b - 55)
  else none

/-- Accumulate a digit string in the given radix; `none` on any non-digit. -/
def parseDigitsAcc (dig : Nat → Option Nat) (radix : Nat) : BStr → Nat → Option Nat
  | [], acc => some acc
  | b :: rest, acc =>
    match dig b with
    | some v => parseDigitsAcc dig radix rest (acc * radix + v)
    | none => none

/-- Parse a nonempty digit string in the given radix. -/
def parseDigits (dig : Nat → Option Nat) (radix : Nat) (s : BStr) : Option Nat :=
  match s with
  | [] => none
  | _ => parseDigitsAcc dig radix s 0

/-- Rust `<unsigned>::from_str_radix` / `str::parse::<unsigned>`:
optional `+`/`-` sign (a `-` is only accepted for the value 0), at least
one digit, and the result must fit in the type (`bound` = 2^width). -/
def rustParseUnsigned (dig : Nat → Option Nat) (radix bound : Nat) (s : BStr) : Option Nat :=
  match s with
  | [] => none
  | b :: rest =>
    if b = 43 then
      match parseDigits dig radix rest with
      | some v => if v < bound then some v else none
      | none => none
    else if b = 45 then
      match parseDigits dig radix rest with
      | some v => if v = 0 then some 0 else none
      | none => none
    else
      match parseDigits dig radix (b :: rest) with
      | some v => if v < bound then some v else none
      | none => none

/-- `str::parse::<usize>()` on a 64-bit target. -/
def parseUsize (s : BStr) : Option Nat := rustParseUnsigned decDigit 10 (2 ^ 64) s

/-- `usize::from_str_radix(s, 16)` on a 64-bit target. -/
def parseUsizeHex (s : BStr) : Option Nat := rustParseUnsigned hexDigit 16 (2 ^ 64) s

/-- `str::parse::<u16>()`. -/
def parseU16 (s : BStr) : Option Nat := rustParseUnsigned decDigit 10 (2 ^ 16) s

/-- Fuelled worker for `natToDec` (fuel ≥ n+1 always suffices). -/
def natToDecF : Nat → Nat → BStr
  | 0, _ => []
  | f + 1, n => if n < 10 then [48 + n] else natToDecF f (n / 10) ++ [48 + n % 10]

/-- Decimal representation of a nonnegative integer, as produced by Rust's
`Display for usize` / `format!` / `to_string`. -/
def natToDec (n : Nat) : BStr := natToDecF (n + 1) n

/-- The byte alphabet kept verbatim by the `urlencoding` crate's `encode`
(RFC 3986 unreserved: ALPHA / DIGIT / `-` / `.` / `_` / `~`). -/
def isUnreservedByte (b : Nat) : Bool :=
  (48 ≤ b && b ≤ 57) || (65 ≤ b && b ≤ 90) || (97 ≤ b && b ≤ 122) ||
    b == 45 || b == 46 || b == 95 || b == 126

/-- Uppercase hex digit byte of a nibble. -/
def hexUpper (n : Nat) : Nat := if n < 10 then 48 + n else 55 + n

/-- `urlencoding::encode`: percent-escapes every non-unreserved byte with
uppercase hex. -/
def urlEncode : BStr → BStr
  | [] => []
  | b :: rest =>
    (if isUnreservedByte b then [b] else [37, hexUpper (b / 16), hexUpper (b % 16)]) ++
      urlEncode rest

/-- `urlencoding::decode`, byte level: `%XY` with two hex digits becomes a
byte; a `%` not followed by two hex digits is passed through. -/
def urlDecodeRawF : Nat → BStr → BStr
  | 0, s => s
  | _ + 1, [] => []
  | f + 1, c :: rest =>
    if c = 37 then
      match rest with
      | a :: b :: r2 =>
        match hexDigit a, hexDigit b with
        | some x, some y => (16 * x + y) :: urlDecodeRawF f r2
        | _, _ => 37 :: urlDecodeRawF f rest
      | _ => 37 :: urlDecodeRawF f rest
    else c :: urlDecodeRawF f rest

/-- `urlencoding::decode`'s byte pass (fuel only makes the recursion
structural; every step consumes at least one byte, so `s.length` fuel is
always enough). -/
def urlDecodeRaw (s : BStr) : BStr := urlDecodeRawF s.length s

/-- `urlencoding::decode(..).ok()`: percent-decode, then the UTF-8 check
done by the crate's `String` conversion. -/
def urlDecode (s : BStr) : Option BStr :=
  let raw := urlDecodeRaw s
  if isUtf8 raw then some raw else none

/-- Error enum of src/src/error.rs (the ezhttp variant in
src/src/ezhttp/error.rs is a prefix of this one, with `RequstError` for
`RequestError`; the shared constructors are identified). -/
inductive HttpError where
  | ReadLineEof | ReadLineUnknown | InvalidHeaders | InvalidQuery | InvalidContentSize
  | InvalidContent | JsonParseError | WriteHeadError | WriteBodyError | InvalidStatus
  | RequestError | UrlError | ConnectError | ShutdownError | SslError | UnknownScheme
deriving DecidableEq, Repr

/-- Outcome alphabet of running a piece of Rust code: an `HttpError`, or a
panic (index/slice out of bounds, arithmetic underflow). -/
inductive RError where
  | panic : RError
  | err : HttpError → RError
deriving DecidableEq, Repr

deriving instance DecidableEq for Except

/-- Result of running fallible Rust code over a modelled stream. -/
abbrev RRes (α : Type) := Except RError α

/-- Header multimap: ordered list of (name, value) pairs, the backing
representation of both `Headers` structs (src/src/headers.rs:12-15 and
src/src/ezhttp/headers.rs:12-15). -/
structure Headers where
  entries : List (BStr × BStr)
deriving DecidableEq, Repr

namespace Ez

/-- src/src/ezhttp/headers.rs:54-61 `Headers::get`: value of the first
entry whose name matches case-insensitively. -/
def Headers.get (h : Headers) (key : BStr) : Option BStr :=
  (h.entries.find? (fun e => toLower e.1 == toLower key)).map Prod.snd

/-- Loop of src/src/ezhttp/headers.rs:63-71 `Headers::put`: replace the
value of the first case-insensitive match in place, else push. -/
def Headers.putGo (key val : BStr) : List (BStr × BStr) → List (BStr × BStr)
  | [] => [(key, val)]
  | t :: rest =>
    if toLower t.1 = toLower key then (t.1, val) :: rest
    else t :: Headers.putGo key val rest

/-- src/src/ezhttp/headers.rs:63-71 `Headers::put`. -/
def Headers.put (h : Headers) (key val : BStr) : Headers := ⟨Headers.putGo key val h.entries⟩

/-- src/src/ezhttp/headers.rs:73-80 `Headers::put_default`: push only when
no case-insensitive match exists. -/
def Headers.put_default (h : Headers) (key val : BStr) : Headers :=
  if h.entries.any (fun t => toLower t.1 == toLower key) then h
  else ⟨h.entries ++ [(key, val)]⟩

/-- Loop of src/src/ezhttp/headers.rs:82-89 `Headers::remove`: the loop
returns right after removing the first case-insensitive match. -/
def Headers.removeGo (key : BStr) : List (BStr × BStr) → List (BStr × BStr)
  | [] => []
  | t :: rest =>
    if toLower t.1 = toLower key then rest
    else t :: Headers.removeGo key rest

/-- src/src/ezhttp/headers.rs:82-89 `Headers::remove`. -/
def Headers.remove (h : Headers) (key : BStr) : Headers := ⟨Headers.removeGo key h.entries⟩

end Ez

namespace Cl

/-- src/src/headers.rs:54-59 `Headers::get`: all values whose name matches
case-insensitively, in order. -/
def Headers.get (h : Headers) (key : BStr) : List BStr :=
  (h.entries.filter (fun e => toLower e.1 == toLower key)).map Prod.snd

/-- src/src/headers.rs:61-63 `Headers::add`. -/
def Headers.add (h : Headers) (key val : BStr) : Headers := ⟨h.entries ++ [(key, val)]⟩

/-- Loop of src/src/headers.rs:76-84 `Headers::remove`: iterates over a
clone of the entries with index `i`, removing position `i - c` from the
live vector, `c` counting removals so far. -/
def Headers.removeGo (key : BStr) : List (BStr × BStr) → Nat → List (BStr × BStr) → Nat → List (BStr × BStr)
  | [], _, cur, _ => cur
  | t :: rest, i, cur, c =>
    if toLower t.1 = toLower key then Headers.removeGo key rest (i + 1) (cur.eraseIdx (i - c)) (c + 1)
    else Headers.removeGo key rest (i + 1) cur c

/-- src/src/headers.rs:76-84 `Headers::remove`. -/
def Headers.remove (h : Headers) (key : BStr) : Headers :=
  ⟨Headers.removeGo key h.entries 0 h.entries 0⟩

/-- src/src/headers.rs:65-68 `Headers::put`: remove all matches, then push. -/
def Headers.put (h : Headers) (key val : BStr) : Headers :=
  ⟨(Headers.remove h key).entries ++ [(key, val)]⟩

/-- src/src/headers.rs:70-74 `Headers::put_default`: push only when `get`
returns nothing. -/
def Headers.put_default (h : Headers) (key val : BStr) : Headers :=
  if Headers.get h key = [] then ⟨h.entries ++ [(key, val)]⟩ else h

end Cl

/-- `read_line` (src/src/lib.rs:178-198, identically src/src/ezhttp/mod.rs:28-48):
read bytes up to and including the first 0x0A; end of stream just ends the
line.  Returns the line bytes and the unread remainder; the UTF-8 check of
the source is applied by the caller wrapper below. -/
def read_line_bytes : BStr → BStr × BStr
  | [] => ([], [])
  | b :: rest =>
    if b = 10 then ([10], rest)
    else
      let lr := read_line_bytes rest
      (b :: lr.1, lr.2)

/-- `read_line` with its `String::from_utf8` check (`ReadLineUnknown` on
invalid UTF-8).  `ReadLineEof` arises only from transport-level read
errors, which the byte-list stream model cannot produce. -/
def read_line (s : BStr) : RRes (BStr × BStr) :=
  let lr := read_line_bytes s
  if isUtf8 lr.1 then .ok (lr.1, lr.2) else .error (.err .ReadLineUnknown)

/-- `read_line_crlf` (src/src/lib.rs:200-205, identically
src/src/ezhttp/mod.rs:50-55): `i[..i.len() - 2]`.  For a line shorter than
2 bytes the index underflows (Rust panics); slicing off a UTF-8 char
boundary (continuation byte at the cut) also panics. -/
def read_line_crlf (s : BStr) : RRes (BStr × BStr) :=
  match read_line s with
  | .error e => .error e
  | .ok (l, r) =>
    if l.length < 2 then .error .panic
    else if isCont (l.getD (l.length - 2) 0) then .error .panic
    else .ok (l.take (l.length - 2), r)

/-- Body: owned byte buffer (src/src/ezhttp/body.rs:11-14). -/
structure Body where
  data : BStr
deriving DecidableEq, Repr

namespace Ez

/-- Multipart part (src/src/ezhttp/body.rs:170-176). -/
structure Part where
  name : BStr
  body : Body
  filename : Option BStr
  content_type : Option BStr
deriving DecidableEq, Repr

/-- Chunked-transfer loop of `Body::recv` (src/src/ezhttp/body.rs:140-147):
hex size line, `size+2` bytes read then truncated to `size`, until a zero
size.  Fuel only makes the recursion structural; every iteration consumes
at least one byte, so `stream.length + 1` fuel is never exhausted. -/
def chunkLoopF : Nat → BStr → BStr → RRes (BStr × BStr)
  | 0, _, _ => .error .panic
  | f + 1, s, acc =>
    match read_line_crlf s with
    | .error e => .error e
    | .ok (line, rest) =>
      match parseUsizeHex line with
      | none => .error (.err .InvalidContent)
      | some 0 => .ok (acc, rest)
      | some (n + 1) =>
        if rest.length < (n + 1) + 2 then .error (.err .InvalidContent)
        else chunkLoopF f (rest.drop ((n + 1) + 2)) (acc ++ rest.take (n + 1))

/-- `Body::recv` (src/src/ezhttp/body.rs:131-152).  Note the source looks
up the header name `"transfer_encoding"` — with an underscore — while the
wire header is `transfer-encoding`. -/
def Body.recv (stream : BStr) (headers : Headers) : RRes (Body × BStr) :=
  match Ez.Headers.get headers (bytes "content-length") with
  | some cs =>
    match parseUsize cs with
    | none => .error (.err .InvalidContentSize)
    | some n =>
      if stream.length < n then .error (.err .InvalidContent)
      else .ok (⟨stream.take n⟩, stream.drop n)
  | none =>
    match Ez.Headers.get headers (bytes "transfer_encoding") with
    | some te =>
      if (splitAll te (bytes ",")).any (fun o => trim o == bytes "chunked") then
        match chunkLoopF (stream.length + 1) stream [] with
        | .error e => .error e
        | .ok (d, rest) => .ok (⟨d⟩, rest)
      else .ok (⟨[]⟩, stream)
    | none => .ok (⟨[]⟩, stream)

end Ez

namespace Ez

/-- The bytes one part contributes after its `--boundary` marker inside
`Body::from_multipart` (src/src/ezhttp/body.rs:76-91): CRLF, a
Content-Disposition line with the quoted name and optional quoted
filename, an optional Content-Type line, a blank line, then the raw body
bytes. -/
def encTail (p : Part) : BStr :=
  bytes "\r\nContent-Disposition: form-data; name=\"" ++ p.name ++
    bytes "\"" ++
    (match p.filename with
     | some f => bytes "; filename=\"" ++ f ++ bytes "\""
     | none => []) ++
    bytes "\r\n" ++
    (match p.content_type with
     | some c => bytes "Content-Type: " ++ c ++ bytes "\r\n"
     | none => []) ++
    bytes "\r\n" ++ p.body.data

/-- The header block of one encoded part: everything of `encTail` strictly
before the blank line that separates headers from the body bytes. -/
def headOf (p : Part) : BStr :=
  bytes "\r\nContent-Disposition: form-data; name=\"" ++ p.name ++
    bytes "\"" ++
    (match p.filename with
     | some f => bytes "; filename=\"" ++ f ++ bytes "\""
     | none => []) ++
    (match p.content_type with
     | some c => bytes "\r\nContent-Type: " ++ c
     | none => [])

/-- Encoding of one part inside `Body::from_multipart`
(src/src/ezhttp/body.rs:73-92): the `--boundary` marker followed by the
part's contribution. -/
def encPart (boundary : BStr) (p : Part) : BStr :=
  bytes "--" ++ boundary ++ encTail p

/-- `Body::from_multipart` (src/src/ezhttp/body.rs:70-99): all encoded
parts in order, then the `--boundary--` terminator line. -/
def Body.from_multipart (parts : List Part) (boundary : BStr) : Body :=
  ⟨(parts.map (encPart boundary)).join ++ bytes "--" ++ boundary ++ bytes "--\r\n"⟩

/-- Modelled from the spec: `split_bytes` is called by `Body::as_multipart`
(src/src/ezhttp/body.rs:103) but defined in the crate-root module, which is
absent from src/.  Spec §4.3 decode: "split on `--boundary`"; modelled as
the byte analogue of `str::split`: split on every occurrence of the
pattern. -/
def split_bytes (data pat : BStr) : List BStr := splitAll data pat

/-- Modelled from the spec: `split_bytes_once` is called by
`Body::as_multipart` (src/src/ezhttp/body.rs:106) but defined in the
crate-root module, which is absent from src/.  Spec §4.3 decode: "split
each part on the first blank-line-separated header/body boundary";
modelled as a first-occurrence split that yields the whole input and an
empty tail when the pattern is absent. -/
def split_bytes_once (data pat : BStr) : BStr × BStr :=
  match splitOnce data pat with
  | some ab => ab
  | none => (data, [])

/-- Per-segment decoder inside `Body::as_multipart`
(src/src/ezhttp/body.rs:105-128): split the segment at the first blank
line, UTF-8-decode the head, parse `name: value` header lines with
lowercased names, and extract name / filename / content-type.  The Rust
slice `k[6..k.len()-1]` is modelled by take/drop; for a hostile token
shorter than 7 bytes the Rust slice panics where this model yields bytes —
no claim exercises that input. -/
def decodeSegment (o : BStr) : Option Part :=
  let hb := split_bytes_once o (bytes "\r\n\r\n")
  if isUtf8 hb.1 then
    let head := (splitAll hb.1 (bytes "\r\n")).filterMap (fun h =>
      (splitOnce h (bytes ": ")).map (fun kv => (toLower kv.1, kv.2)))
    let content_type := (head.find? (fun e => e.1 == bytes "content-type")).map Prod.snd
    match head.find? (fun e => e.1 == bytes "content-disposition") with
    | none => none
    | some cd =>
      let toks := ((splitAll cd.2 (bytes ";")).filter (fun t => t ≠ bytes "form-data")).map trim
      match toks.find? (fun k => (bytes "name=\"").isPrefixOf k) with
      | none => none
      | some k =>
        some ⟨(k.take (k.length - 1)).drop 6, ⟨hb.2⟩,
          (toks.find? (fun k2 => (bytes "filename=\"").isPrefixOf k2)).map
            (fun k2 => (k2.take (k2.length - 1)).drop 10),
          content_type⟩
  else none

/-- `Body::as_multipart` (src/src/ezhttp/body.rs:101-129). -/
def Body.as_multipart (b : Body) (boundary : BStr) : List Part :=
  ((split_bytes b.data (bytes "--" ++ boundary)).filter
      (fun o => o ≠ bytes "--\r\n\r\n")).filterMap decodeSegment

/-- Header-reading loop of `HttpResponse::read`
(src/src/ezhttp/response.rs:79-95): CRLF lines of `name: value` with
lowercased names via `put`, until an empty line; a read error (but not a
panic) maps to `InvalidHeaders`.  Fuel only makes the recursion
structural; each iteration consumes at least two bytes. -/
def headersLoopF : Nat → BStr → Headers → RRes (Headers × BStr)
  | 0, _, _ => .error .panic
  | f + 1, s, acc =>
    match read_line_crlf s with
    | .error .panic => .error .panic
    | .error (.err _) => .error (.err .InvalidHeaders)
    | .ok (line, rest) =>
      if line = [] then .ok (acc, rest)
      else
        match splitOnce line (bytes ": ") with
        | none => .error (.err .InvalidHeaders)
        | some kv => headersLoopF f rest (Ez.Headers.put acc (toLower kv.1) kv.2)

/-- `HttpResponse` (src/src/ezhttp/response.rs:10-15). -/
structure HttpResponse where
  headers : Headers
  status_code : BStr
  data : BStr
deriving DecidableEq, Repr

/-- `HttpResponse::read` (src/src/ezhttp/response.rs:64-138): status line
(everything after the first space is the status code), header block, then
a content-length-sized body, or read-to-EOF when no content-length header
is present.  This is the response receiver the client send pipeline uses
to consume a response (the crate-root `response.rs` of the newest layout
is absent from src/; this present predecessor has the same structure). -/
def HttpResponse.read (s : BStr) : RRes (HttpResponse × BStr) :=
  match read_line_crlf s with
  | .error e => .error e
  | .ok (status, r1) =>
    match splitOnce status (bytes " ") with
    | none => .error (.err .InvalidStatus)
    | some st =>
      match headersLoopF (r1.length + 1) r1 ⟨[]⟩ with
      | .error e => .error e
      | .ok (headers, r2) =>
        match Ez.Headers.get headers (bytes "content-length") with
        | some cs =>
          match parseUsize cs with
          | none => .error (.err .InvalidContentSize)
          | some n =>
            if n = 0 then .ok (⟨headers, st.2, []⟩, r2)
            else if r2.length < n then .error (.err .InvalidContent)
            else .ok (⟨headers, st.2, r2.take n⟩, r2.drop n)
        | none => .ok (⟨headers, st.2, r2⟩, [])

end Ez

/-- Base64 sextet alphabet of `base64::prelude::BASE64_STANDARD`. -/
def b64Digit (n : Nat) : Nat :=
  if n < 26 then 65 + n
  else if n < 52 then 97 + (n - 26)
  else if n < 62 then 48 + (n - 52)
  else if n = 62 then 43
  else 47

/-- `BASE64_STANDARD.encode`: standard base64 with `=` padding. -/
def base64Encode : BStr → BStr
  | b1 :: b2 :: b3 :: rest =>
    [b64Digit (b1 / 4), b64Digit (b1 % 4 * 16 + b2 / 16), b64Digit (b2 % 16 * 4 + b3 / 64),
      b64Digit (b3 % 64)] ++ base64Encode rest
  | [b1, b2] => [b64Digit (b1 / 4), b64Digit (b1 % 4 * 16 + b2 / 16), b64Digit (b2 % 16 * 4), 61]
  | [b1] => [b64Digit (b1 / 4), b64Digit (b1 % 4 * 16), 61, 61]
  | [] => []

/-- What the client does with an established transport, as a function of
the URL scheme. -/
inductive ClientAction where
  | plainExchange
  | tlsExchange
  | fail (e : HttpError)
deriving DecidableEq, Repr

namespace Cl

/-- Scheme dispatch of the current client's `send_request`
(src/src/client/mod.rs:83-90): `https` is wrapped in TLS, everything else
is sent in plain text; there is no other scheme check in this function. -/
def scheme_dispatch (scheme : BStr) : ClientAction :=
  if scheme == bytes "https" then .tlsExchange else .plainExchange

/-- Header preparation step of the current client's `send_request`
(src/src/client/mod.rs:56-64): fold the client's default headers in with
`put_default`, then `put_default` Connection/Host/Content-Length. -/
def prepare_headers (reqHeaders defaults : Headers) (domain : BStr) (bodyLen : Nat) : Headers :=
  let h1 := defaults.entries.foldl (fun acc kv => Cl.Headers.put_default acc kv.1 kv.2) reqHeaders
  let h2 := Cl.Headers.put_default h1 (bytes "Connection") (bytes "close")
  let h3 := Cl.Headers.put_default h2 (bytes "Host") domain
  Cl.Headers.put_default h3 (bytes "Content-Length") (natToDec bodyLen)

/-- The CONNECT request written by `connect_stream`
(src/src/client/mod.rs:29-31) for an `Http`/`Https` proxy. -/
def connect_request_bytes (siteHost : BStr) (auth : Option (BStr × BStr)) : BStr :=
  bytes "CONNECT " ++ siteHost ++ bytes " HTTP/1.1\r\nHost: " ++ siteHost ++ bytes "\r\n" ++
    (match auth with
     | some up => bytes "Proxy-Authorization: basic " ++
         base64Encode (up.1 ++ [58] ++ up.2) ++ bytes "\r\n"
     | none => []) ++
    bytes "\r\n"

/-- `connect_stream` (src/src/client/mod.rs:27-34), `Http`/`Https` proxy
branch, over an already-connected proxy transport: the pair of (bytes
written to the proxy, negotiation outcome).  One full HTTP response is
read from `proxyReply` and discarded; a failure to complete it maps to
`ConnectError`, and on success the unread remainder is the tunnel.
(A failed write also maps to `ConnectError` in the source; the byte-list
transport model cannot fail a write.) -/
def connect_stream_http (siteHost : BStr) (auth : Option (BStr × BStr)) (proxyReply : BStr) :
    BStr × RRes BStr :=
  (connect_request_bytes siteHost auth,
    match Ez.HttpResponse.read proxyReply with
    | .ok pr => .ok pr.2
    | .error _ => .error (.err .ConnectError))

end Cl

namespace Ez

/-- Scheme dispatch of the legacy client's `send_request`
(src/src/ezhttp/client/mod.rs:54-66, repeated identically in every proxy
branch, lines 139-156 for `Proxy::None`): `http` plain, `https` TLS,
anything else fails with `UnknownScheme` before any request is sent to the
target. -/
def scheme_dispatch (scheme : BStr) : ClientAction :=
  if scheme == bytes "http" then .plainExchange
  else if scheme == bytes "https" then .tlsExchange
  else .fail .UnknownScheme

/-- Header preparation step of the legacy client's `send_request`
(src/src/ezhttp/client/mod.rs:26-32): folds the client's default headers
in with `put` and then `put`s Connection/Host/Content-Length, each
overriding any caller-set value. -/
def prepare_headers (reqHeaders defaults : Headers) (domain : BStr) (bodyLen : Nat) : Headers :=
  let h1 := defaults.entries.foldl (fun acc kv => Ez.Headers.put acc kv.1 kv.2) reqHeaders
  let h2 := Ez.Headers.put h1 (bytes "Connection") (bytes "close")
  let h3 := Ez.Headers.put h2 (bytes "Host") domain
  Ez.Headers.put h3 (bytes "Content-Length") (natToDec bodyLen)

end Ez

namespace Cl

/-- `RootURL` (src/src/request.rs:11-16); the port is a `u16`, kept as a
`Nat` (parsing enforces `< 2^16`). -/
structure RootURL where
  scheme : BStr
  domain : BStr
  port : Nat
deriving DecidableEq, Repr

/-- `URL` (src/src/request.rs:49-55).  The Rust `query` field is a
`HashMap<String, String>`; it is modelled as an association list with
pairwise-distinct keys standing for the map, the list order being one
arbitrary representative of the map's unspecified iteration order. -/
structure URL where
  root : Option RootURL
  path : BStr
  anchor : Option BStr
  query : List (BStr × BStr)
deriving DecidableEq, Repr

/-- `FromStr for RootURL` (src/src/request.rs:18-33): split at `://`,
split the host at `:` for an explicit port or default it by scheme
(80/443; unknown schemes without a port fail), parse the port as `u16`. -/
def RootURL.from_str (text : BStr) : Except HttpError RootURL :=
  match splitOnce text (bytes "://") with
  | none => .error .UrlError
  | some sh =>
    let dp : Option (BStr × BStr) :=
      match splitOnce sh.2 (bytes ":") with
      | some x => some x
      | none =>
        if sh.1 == bytes "https" then some (sh.2, bytes "443")
        else if sh.1 == bytes "http" then some (sh.2, bytes "80")
        else none
    match dp with
    | none => .error .UrlError
    | some d =>
      match parseU16 d.2 with
      | none => .error .UrlError
      | some p => .ok ⟨sh.1, d.1, p⟩

/-- `ToString for RootURL` (src/src/request.rs:35-46): omit the port when
it is the scheme default (80 for http, 443 for https). -/
def RootURL.to_string (r : RootURL) : BStr :=
  r.scheme ++ bytes "://" ++
    (if (r.scheme == bytes "http" && r.port == 80) ||
        (r.scheme == bytes "https" && r.port == 443)
     then r.domain
     else r.domain ++ bytes ":" ++ natToDec r.port)

/-- `HashMap::from_iter` over key/value pairs: a later pair with an equal
key overwrites the earlier value; modelled on the association-list
representative. -/
def hmInsert (m : List (BStr × BStr)) (kv : BStr × BStr) : List (BStr × BStr) :=
  if m.any (fun e => e.1 == kv.1) then
    m.map (fun e => if e.1 == kv.1 then (e.1, kv.2) else e)
  else m ++ [kv]

/-- `HashMap::from_iter` over a pair list. -/
def hmFromList (l : List (BStr × BStr)) : List (BStr × BStr) := l.foldl hmInsert []

/-- `URL::to_path_str` (src/src/request.rs:72-84): path, then
`?k=v&..` with percent-encoded keys and values when the query map is
nonempty, then `#anchor` when present. -/
def URL.to_path_str (u : URL) : BStr :=
  u.path ++
    (if u.query.isEmpty then []
     else bytes "?" ++
       List.intercalate (bytes "&")
         (u.query.map (fun o => urlEncode o.1 ++ bytes "=" ++ urlEncode o.2))) ++
    (match u.anchor with
     | some a => bytes "#" ++ a
     | none => [])

/-- The per-pair closure of `URL::from_path_str`'s query decoding
(src/src/request.rs:100-103): split the entry at the first `=` (a pair
without `=` gets the empty value), percent-decode key and value, and skip
the pair when either decode fails. -/
def queryPairDecode (entry : BStr) : Option (BStr × BStr) :=
  let kv := (splitOnce entry (bytes "=")).getD (entry, [])
  match urlDecode kv.1, urlDecode kv.2 with
  | some k, some v => some (k, v)
  | _, _ => none

/-- `URL::from_path_str` (src/src/request.rs:86-107): split the anchor off
at the first `#` (empty → absent), split the query off at the first `?`,
percent-decode each `&`-separated `k=v` pair, and collect into the map. -/
def URL.from_path_str (text : BStr) : Option URL :=
  let ta := (splitOnce text (bytes "#")).getD (text, [])
  let pq := (splitOnce ta.1 (bytes "?")).getD (ta.1, [])
  let anchor := if ta.2 = [] then none else some ta.2
  let query :=
    if pq.2 = [] then []
    else hmFromList ((splitAll pq.2 (bytes "&")).filterMap queryPairDecode)
  some ⟨none, pq.1, anchor, query⟩

/-- `FromStr for URL` (src/src/request.rs:110-137): a text starting with
`/` is path-only; otherwise split at `://`, split host from path at the
first `/` of the remainder (path defaults to `/`), parse the path part and
the root. -/
def URL.from_str (text : BStr) : Except HttpError URL :=
  if (bytes "/").isPrefixOf text then
    match URL.from_path_str text with
    | some u => .ok u
    | none => .error .UrlError
  else
    match splitOnce text (bytes "://") with
    | none => .error .UrlError
    | some sp =>
      let hn :=
        match splitOnce sp.2 (bytes "/") with
        | some hp => (sp.1 ++ bytes "://" ++ hp.1, bytes "/" ++ hp.2)
        | none => (sp.1 ++ bytes "://" ++ sp.2, bytes "/")
      match URL.from_path_str hn.2 with
      | none => .error .UrlError
      | some u =>
        match RootURL.from_str hn.1 with
        | .error e => .error e
        | .ok r => .ok { u with root := some r }

/-- `ToString for URL` (src/src/request.rs:139-143). -/
def URL.to_string (u : URL) : BStr :=
  (match u.root with
   | some r => r.to_string
   | none => []) ++ u.to_path_str

/-- `HttpRequest` (src/src/request.rs:184-191); the server-side peer
address (`addr`) carries no codec content and is omitted. -/
structure HttpRequest where
  url : URL
  method : BStr
  headers : Headers
  body : Body
deriving DecidableEq, Repr

/-- Header-reading loop of `Headers::recv` (src/src/headers.rs:106-118):
CRLF `name: value` lines collected with `add` (name case preserved) until
an empty line; a read error (but not a panic) maps to `InvalidHeaders`.
Fuel only makes the recursion structural. -/
def headersLoopF : Nat → BStr → Headers → RRes (Headers × BStr)
  | 0, _, _ => .error .panic
  | f + 1, s, acc =>
    match read_line_crlf s with
    | .error .panic => .error .panic
    | .error (.err _) => .error (.err .InvalidHeaders)
    | .ok (line, rest) =>
      if line = [] then .ok (acc, rest)
      else
        match splitOnce line (bytes ": ") with
        | none => .error (.err .InvalidHeaders)
        | some kv => headersLoopF f rest (Cl.Headers.add acc kv.1 kv.2)

/-- `Headers::recv` (src/src/headers.rs:106-118). -/
def Headers.recv (s : BStr) : RRes (Headers × BStr) := headersLoopF (s.length + 1) s ⟨[]⟩

/-- `HttpRequest::recv` (src/src/request.rs:218-241): request line split
by `splitn(3, " ")`, then `status[0]`/`status[1]` are indexed without a
length check — a request line with fewer than two tokens panics.  Headers
and body are then received, and the request target is parsed as a URL by
`HttpRequest::new` (src/src/request.rs:199-215).  The body receiver is
`Body::recv`; src/ carries its text in src/src/ezhttp/body.rs (`Ez.Body.recv`). -/
def HttpRequest.recv (stream : BStr) : RRes (HttpRequest × BStr) :=
  match read_line_crlf stream with
  | .error e => .error e
  | .ok (statusLine, r1) =>
    match splitN 3 statusLine (bytes " ") with
    | [] => .error .panic
    | [_] => .error .panic
    | method :: page :: _ =>
      match Headers.recv r1 with
      | .error e => .error e
      | .ok (headers, r2) =>
        match Ez.Body.recv r2 headers with
        | .error e => .error e
        | .ok (body, r3) =>
          match URL.from_str page with
          | .error e => .error (.err e)
          | .ok u => .ok (⟨u, method, headers, body⟩, r3)

/-- `Sendable for Headers::send` (src/src/headers.rs:128-145): each entry
as `name: value` CRLF, insertion order, no trailing blank line. -/
def Headers.send_bytes (h : Headers) : BStr :=
  (h.entries.map (fun kv => kv.1 ++ bytes ": " ++ kv.2 ++ bytes "\r\n")).join

/-- `Sendable for HttpRequest::send` (src/src/request.rs:267-295): the
bytes written on success.  A clone of the URL with `root := none` is
serialized into the request line (`send` takes `&self`, so the request's
own `url` is untouched); then the headers, a blank line, and the raw
body. -/
def HttpRequest.send_bytes (r : HttpRequest) : BStr :=
  r.method ++ bytes " " ++ URL.to_string { r.url with root := none } ++ bytes " HTTP/1.1\r\n" ++
    Headers.send_bytes r.headers ++ bytes "\r\n" ++ r.body.data

end Cl

/-! ### Generic lemmas about the byte-string primitives -/

theorem prefixOf_append_stable (pat : BStr) :
    ∀ (x t : BStr), pat.length ≤ x.length → pat.isPrefixOf (x ++ t) = pat.isPrefixOf x := by
  induction pat with
  | nil => intro x t _; simp [List.isPrefixOf]
  | cons a pr ih =>
    intro x t hlen
    cases x with
    | nil => simp at hlen
    | cons b x2 =>
      simp only [List.cons_append, List.isPrefixOf, List.append_eq]
      rw [ih x2 t (by simpa using hlen)]

/-- No occurrence of `pat` begins strictly before the end-marker copy of
`pat` in `s ++ pat`. -/
def noEarlyOcc (pat s : BStr) : Prop :=
  ∀ i < s.length, ¬ pat.isPrefixOf ((s ++ pat).drop i)

instance (pat s : BStr) : Decidable (noEarlyOcc pat s) := by
  unfold noEarlyOcc; infer_instance

theorem splitOnce_append (pat : BStr) (hne : pat ≠ []) :
    ∀ (p t : BStr), noEarlyOcc pat p → splitOnce (p ++ pat ++ t) pat = some (p, t) := by
  intro p
  induction p with
  | nil =>
    intro t _
    cases pat with
    | nil => exact absurd rfl hne
    | cons a pr =>
      simp only [List.nil_append, List.cons_append, splitOnce]
      rw [if_pos]
      · simp [List.drop_left ((a :: pr) : BStr) t]
      · have : ((a :: pr) : BStr) <+: (a :: pr) ++ t := List.prefix_append _ _
        simpa [List.isPrefixOf_iff_prefix] using this
  | cons c p2 ih =>
    intro t h
    have hnot : pat.isPrefixOf (c :: (p2 ++ pat ++ t)) = false := by
      have h0 := h 0 (by simp)
      simp only [List.drop_zero, List.cons_append] at h0
      have hstable : pat.isPrefixOf ((c :: (p2 ++ pat)) ++ t) = pat.isPrefixOf (c :: (p2 ++ pat)) := by
        apply prefixOf_append_stable
        simp; omega
      have hsh : (c :: (p2 ++ pat ++ t)) = (c :: (p2 ++ pat)) ++ t := by simp
      rw [hsh, hstable]
      exact Bool.eq_false_iff.mpr (fun hb => h0 hb)
    have ih2 : splitOnce (p2 ++ pat ++ t) pat = some (p2, t) := by
      apply ih
      intro i hi
      have := h (i + 1) (by simpa using Nat.succ_lt_succ hi)
      simpa using this
    have hsh2 : ((c :: p2) ++ pat ++ t) = c :: (p2 ++ pat ++ t) := by simp
    rw [hsh2]
    simp only [splitOnce, hnot, Bool.false_eq_true, if_false, ih2, Option.map_some]
    rfl

theorem notin_noEarlyOcc (a : Nat) (pr s : BStr) (h : a ∉ s) : noEarlyOcc (a :: pr) s := by
  intro i hi hpre
  have hdrop : (s ++ (a :: pr)).drop i = s.drop i ++ (a :: pr) := by
    rw [List.drop_append_eq_append_drop]
    rw [Nat.sub_eq_zero_of_le (Nat.le_of_lt hi), List.drop_zero]
  have hgetcons : s.drop i = s[i] :: s.drop (i + 1) := List.drop_eq_getElem_cons hi
  rw [hdrop, hgetcons] at hpre
  simp only [List.cons_append, List.isPrefixOf, Bool.and_eq_true, beq_iff_eq] at hpre
  exact h (hpre.1 ▸ List.getElem_mem hi)

theorem splitOnce_eq_none (a : Nat) (pr : BStr) :
    ∀ (s : BStr), a ∉ s → splitOnce s (a :: pr) = none := by
  intro s
  induction s with
  | nil => intro _; simp [splitOnce]
  | cons c s2 ih =>
    intro h
    have hca : a ≠ c := fun he => h (by simp [he])
    simp only [splitOnce, List.isPrefixOf, Bool.and_eq_true, beq_iff_eq]
    rw [if_neg (by simp [hca])]
    rw [ih (fun hm => h (List.mem_cons_of_mem _ hm))]
    rfl

theorem splitOnce_some_length (pat : BStr) (hne : pat ≠ []) :
    ∀ (s a b : BStr), splitOnce s pat = some (a, b) → b.length < s.length := by
  intro s
  induction s with
  | nil =>
    intro a b h
    cases pat with
    | nil => exact absurd rfl hne
    | cons x xs => simp [splitOnce, List.isPrefixOf] at h
  | cons c rest ih =>
    intro a b h
    simp only [splitOnce] at h
    by_cases hp : pat.isPrefixOf (c :: rest) = true
    · rw [if_pos hp] at h
      simp only [Option.some.injEq, Prod.mk.injEq] at h
      obtain ⟨-, hb⟩ := h
      rw [← hb]
      have hple : 1 ≤ pat.length := by
        cases pat with
        | nil => exact absurd rfl hne
        | cons _ _ => simp
      simp only [List.length_drop, List.length_cons]
      omega
    · rw [if_neg hp] at h
      cases hso : splitOnce rest pat with
      | none => rw [hso] at h; exact Option.noConfusion h
      | some ab =>
        rw [hso] at h
        obtain ⟨a2, b2⟩ := ab
        injection h with h2
        have hb : b2 = b := congrArg Prod.snd h2
        subst hb
        have := ih a2 b2 hso
        simp only [List.length_cons]
        omega

theorem splitAllF_fuel (pat : BStr) (hne : pat ≠ []) :
    ∀ (f : Nat), ∀ (g : Nat) (s : BStr), s.length < f → s.length < g →
      splitAllF f s pat = splitAllF g s pat := by
  intro f
  induction f with
  | zero => intro g s h; omega
  | succ f2 ih =>
    intro g s hf hg
    cases g with
    | zero => omega
    | succ g2 =>
      cases hso : splitOnce s pat with
      | none => simp only [splitAllF, hso]
      | some ab =>
        obtain ⟨a, b⟩ := ab
        have hlen := splitOnce_some_length pat hne s a b hso
        simp only [splitAllF, hso]
        rw [ih g2 b (by omega) (by omega)]

theorem splitAll_append (pat : BStr) (hne : pat ≠ []) (p t : BStr) (h : noEarlyOcc pat p) :
    splitAll (p ++ pat ++ t) pat = p :: splitAll t pat := by
  have hlt : t.length < (p ++ pat ++ t).length := by
    simp only [List.length_append]
    have : 1 ≤ pat.length := by
      cases pat with
      | nil => exact absurd rfl hne
      | cons _ _ => simp
    omega
  unfold splitAll
  simp only [splitAllF]
  rw [splitOnce_append pat hne p t h]
  show p :: splitAllF ((p ++ pat ++ t).length) t pat = p :: splitAllF (t.length + 1) t pat
  exact congrArg _ (splitAllF_fuel pat hne _ _ t hlt (by omega))

theorem splitAll_single (a : Nat) (pr s : BStr) (h : a ∉ s) : splitAll s (a :: pr) = [s] := by
  unfold splitAll
  simp only [splitAllF]
  rw [splitOnce_eq_none a pr s h]

theorem trim_cons_ws (a : Nat) (l : BStr) (h : isWs a = true) : trim (a :: l) = trim l := by
  simp [trim, List.dropWhile_cons, h]

theorem trim_sandwich (a b : Nat) (m : BStr) (ha : isWs a = false) (hb : isWs b = false) :
    trim (a :: m ++ [b]) = a :: m ++ [b] := by
  simp [trim, List.dropWhile_cons, ha, hb]

/-! ### Decimal / hex / percent-coding lemmas -/

theorem parseDigitsAcc_append (dig : Nat → Option Nat) (radix : Nat) :
    ∀ (a b : BStr) (acc : Nat),
      parseDigitsAcc dig radix (a ++ b) acc =
        match parseDigitsAcc dig radix a acc with
        | some v => parseDigitsAcc dig radix b v
        | none => none := by
  intro a
  induction a with
  | nil => intro b acc; rfl
  | cons x xs ih =>
    intro b acc
    simp only [List.cons_append, parseDigitsAcc]
    cases hd : dig x with
    | none => rfl
    | some v => exact ih b (acc * radix + v)

theorem natToDecF_parse :
    ∀ (f n : Nat), n < f → ∀ (acc : Nat),
      parseDigitsAcc decDigit 10 (natToDecF f n) acc =
        some (acc * 10 ^ (natToDecF f n).length + n) := by
  intro f
  induction f with
  | zero => intro n h; omega
  | succ f2 ih =>
    intro n hn acc
    by_cases h10 : n < 10
    · have hd : decDigit (48 + n) = some n := by
        unfold decDigit
        have h1 : (48 ≤ 48 + n && 48 + n ≤ 57) = true := by
          simp only [Bool.and_eq_true, decide_eq_true_eq]
          omega
        rw [if_pos h1]
        congr 1
        omega
      simp only [natToDecF, if_pos h10, parseDigitsAcc, hd, List.length_singleton]
      norm_num
    · simp only [natToDecF, if_neg h10]
      rw [parseDigitsAcc_append]
      rw [ih (n / 10) (by omega) acc]
      have hd : decDigit (48 + n % 10) = some (n % 10) := by
        unfold decDigit
        have hm : n % 10 < 10 := Nat.mod_lt n (by norm_num)
        have h1 : (48 ≤ 48 + n % 10 && 48 + n % 10 ≤ 57) = true := by
          simp only [Bool.and_eq_true, decide_eq_true_eq]
          omega
        rw [if_pos h1]
        congr 1
        omega
      simp only [parseDigitsAcc, hd]
      congr 1
      rw [List.length_append, List.length_singleton, pow_succ, ← mul_assoc]
      generalize acc * 10 ^ (natToDecF f2 (n / 10)).length = Q
      omega

theorem natToDecF_digits :
    ∀ (f n : Nat), ∀ b ∈ natToDecF f n, 48 ≤ b ∧ b ≤ 57 := by
  intro f
  induction f with
  | zero => intro n b hb; simp [natToDecF] at hb
  | succ f2 ih =>
    intro n b hb
    by_cases h10 : n < 10
    · simp only [natToDecF, if_pos h10, List.mem_singleton] at hb
      omega
    · simp only [natToDecF, if_neg h10, List.mem_append, List.mem_singleton] at hb
      rcases hb with hb | hb
      · exact ih _ b hb
      · have := Nat.mod_lt n (show 0 < 10 by norm_num)
        omega

theorem natToDec_ne_nil (n : Nat) : natToDec n ≠ [] := by
  unfold natToDec natToDecF
  by_cases h : n < 10 <;> simp [h]

theorem parse_natToDec (bound n : Nat) (h : n < bound) :
    rustParseUnsigned decDigit 10 bound (natToDec n) = some n := by
  cases hd : natToDec n with
  | nil => exact absurd hd (natToDec_ne_nil n)
  | cons b bs =>
    have hb : 48 ≤ b ∧ b ≤ 57 := by
      apply natToDecF_digits (n + 1) n b
      show b ∈ natToDec n
      rw [hd]; simp
    have hpd : parseDigits decDigit 10 (b :: bs) = some n := by
      show parseDigitsAcc decDigit 10 (b :: bs) 0 = some n
      rw [← hd]
      have := natToDecF_parse (n + 1) n (by omega) 0
      simpa using this
    simp only [rustParseUnsigned]
    rw [if_neg (by omega), if_neg (by omega), hpd]
    show (if n < bound then some n else none) = some n
    rw [if_pos h]

theorem urlEncode_byte_mem :
    ∀ (s : BStr), (∀ b ∈ s, b < 256) → ∀ x ∈ urlEncode s,
      isUnreservedByte x = true ∨ x = 37 ∨ (48 ≤ x ∧ x ≤ 57) ∨ (65 ≤ x ∧ x ≤ 70) := by
  intro s
  induction s with
  | nil => intro _ x hx; simp [urlEncode] at hx
  | cons c rest ih =>
    intro hs x hx
    have hc : c < 256 := hs c (by simp)
    simp only [urlEncode, List.mem_append] at hx
    rcases hx with hx | hx
    · by_cases hu : isUnreservedByte c
      · rw [if_pos hu] at hx
        simp only [List.mem_singleton] at hx
        subst hx
        exact Or.inl hu
      · rw [if_neg hu] at hx
        simp only [List.mem_cons, List.mem_singleton, List.not_mem_nil, or_false] at hx
        rcases hx with hx | hx | hx
        · exact Or.inr (Or.inl hx)
        · subst hx
          unfold hexUpper
          by_cases hlt : c / 16 < 10
          · rw [if_pos hlt]; right; right; left; omega
          · rw [if_neg hlt]; right; right; right; constructor <;> omega
        · subst hx
          unfold hexUpper
          have hm : c % 16 < 16 := by omega
          by_cases hlt : c % 16 < 10
          · rw [if_pos hlt]; right; right; left; omega
          · rw [if_neg hlt]; right; right; right; constructor <;> omega
    · exact ih (fun b hbm => hs b (by simp [hbm])) x hx

theorem urlEncode_not_mem (x : Nat) (hx : isUnreservedByte x = false) (h37 : x ≠ 37)
    (hd : ¬(48 ≤ x ∧ x ≤ 57)) (hh : ¬(65 ≤ x ∧ x ≤ 70))
    (s : BStr) (hs : ∀ b ∈ s, b < 256) : x ∉ urlEncode s := by
  intro hm
  rcases urlEncode_byte_mem s hs x hm with h | h | h | h
  · rw [hx] at h; exact Bool.noConfusion h
  · exact h37 h
  · exact hd h
  · exact hh h

theorem hexDigit_hexUpper (x : Nat) (h : x < 16) : hexDigit (hexUpper x) = some x := by
  unfold hexDigit hexUpper
  by_cases h10 : x < 10
  · rw [if_pos h10]
    rw [if_pos (by simp only [Bool.and_eq_true, decide_eq_true_eq]; omega)]
    congr 1
    omega
  · rw [if_neg h10]
    rw [if_neg (by simp only [Bool.and_eq_true, decide_eq_true_eq]; omega)]
    rw [if_neg (by simp only [Bool.and_eq_true, decide_eq_true_eq]; omega)]
    rw [if_pos (by simp only [Bool.and_eq_true, decide_eq_true_eq]; omega)]
    congr 1
    omega

theorem urlDecodeRawF_encode :
    ∀ (s : BStr), (∀ b ∈ s, b < 256) → ∀ (f : Nat), (urlEncode s).length ≤ f →
      urlDecodeRawF f (urlEncode s) = s := by
  intro s
  induction s with
  | nil => intro _ f _; cases f <;> rfl
  | cons c rest ih =>
    intro hs f hf
    have hc : c < 256 := hs c (by simp)
    have hrest : ∀ b ∈ rest, b < 256 := fun b hbm => hs b (by simp [hbm])
    by_cases hu : isUnreservedByte c
    · simp only [urlEncode, if_pos hu, List.singleton_append] at hf ⊢
      cases f with
      | zero => simp at hf
      | succ f2 =>
        simp only [urlDecodeRawF]
        rw [if_neg (fun hc37 => by rw [hc37] at hu; exact absurd hu (by decide))]
        rw [ih hrest f2 (by simp only [List.length_cons] at hf; omega)]
    · simp only [urlEncode, if_neg hu, List.cons_append, List.nil_append] at hf ⊢
      cases f with
      | zero => simp at hf
      | succ f2 =>
        simp only [urlDecodeRawF, if_pos rfl]
        rw [hexDigit_hexUpper (c / 16) (by omega), hexDigit_hexUpper (c % 16) (by omega)]
        show (16 * (c / 16) + c % 16) :: urlDecodeRawF f2 (urlEncode rest) = c :: rest
        rw [ih hrest f2 (by simp only [List.length_cons] at hf; omega)]
        congr 1
        omega

theorem urlDecode_encode (s : BStr) (hs : ∀ b ∈ s, b < 256) (hu : isUtf8 s = true) :
    urlDecode (urlEncode s) = some s := by
  unfold urlDecode urlDecodeRaw
  rw [urlDecodeRawF_encode s hs _ (Nat.le_refl _)]
  simp [hu]


/-! ### Claim C1: chunked transfer decoding -/

/-- C1: the claim states that a received message carrying a
`transfer-encoding` header whose token list includes `chunked` (and no
content-length) is chunk-decoded, and that the stream
`"4\r\nWiki\r\n5\r\npedia\r\n0\r\n\r\n"` decodes to `"Wikipedia"`.  The
code (src/src/ezhttp/body.rs:138) looks the header up under the name
`transfer_encoding` — with an underscore — so for the real wire header
name the chunked path is never taken and an empty body is returned with
the chunk stream left unread (first conjunct).  The decoding loop itself
is reached only under the misspelled header name, and then produces
exactly the claimed decoding (second conjunct). -/
theorem c1_chunked_header_name :
    Ez.Body.recv (bytes "4\r\nWiki\r\n5\r\npedia\r\n0\r\n\r\n")
        ⟨[(bytes "transfer-encoding", bytes "chunked")]⟩ =
      .ok (⟨[]⟩, bytes "4\r\nWiki\r\n5\r\npedia\r\n0\r\n\r\n") ∧
    Ez.Body.recv (bytes "4\r\nWiki\r\n5\r\npedia\r\n0\r\n\r\n")
        ⟨[(bytes "transfer_encoding", bytes "chunked")]⟩ =
      .ok (⟨bytes "Wikipedia"⟩, bytes "\r\n") := by
  decide

/-! ### Claim C3: the request codec panics on malformed input -/

/-- C3: the claim states the request codec is total (typed `HttpError`,
never a panic) on every malformed byte stream.  The code panics on three
of the claim's own example classes: immediate end-of-stream (`read_line`
returns `Ok("")` and `read_line_crlf` slices `""[..0-2]`,
src/src/lib.rs:202), a request line with fewer than two space-separated
tokens (`status[1]` out of bounds, src/src/request.rs:229), and a header
line shorter than two bytes (same slice underflow). -/
theorem c3_recv_panics :
    Cl.HttpRequest.recv [] = .error .panic ∧
    Cl.HttpRequest.recv (bytes "GET\r\n") = .error .panic ∧
    Cl.HttpRequest.recv (bytes "GET / HTTP/1.1\r\n\n") = .error .panic := by
  decide

/-! ### Claim C5: content-length enforcement -/

/-- C5: with a `content-length` header present, a value that does not
parse as a `usize` fails `Body::recv` with `InvalidContentSize`, and a
parsed length exceeding the bytes available before end-of-stream fails
with `InvalidContent`; a short body is never silently returned
(src/src/ezhttp/body.rs:134-137). -/
theorem c5_content_length (stream : BStr) (hdrs : Headers) (v : BStr)
    (hget : Ez.Headers.get hdrs (bytes "content-length") = some v) :
    (parseUsize v = none →
      Ez.Body.recv stream hdrs = .error (.err .InvalidContentSize)) ∧
    (∀ n, parseUsize v = some n → stream.length < n →
      Ez.Body.recv stream hdrs = .error (.err .InvalidContent)) := by
  constructor
  · intro hp
    unfold Ez.Body.recv
    simp only [hget, hp]
  · intro n hp hlen
    unfold Ez.Body.recv
    simp only [hget, hp]
    rw [if_pos hlen]

/-- Witness for C5 at `Content-Length: abc` and at `Content-Length: 10`
against a five-byte stream. -/
theorem c5_witness :
    Ez.Body.recv (bytes "hello") ⟨[(bytes "Content-Length", bytes "abc")]⟩ =
      .error (.err .InvalidContentSize) ∧
    Ez.Body.recv (bytes "hello") ⟨[(bytes "Content-Length", bytes "10")]⟩ =
      .error (.err .InvalidContent) :=
  ⟨(c5_content_length (bytes "hello") ⟨[(bytes "Content-Length", bytes "abc")]⟩
      (bytes "abc") (by decide)).1 (by decide),
   (c5_content_length (bytes "hello") ⟨[(bytes "Content-Length", bytes "10")]⟩
      (bytes "10") (by decide)).2 10 (by decide) (by decide)⟩

/-! ### Claim C7: unknown schemes -/

/-- C7 counterexample: the current client (src/src/client/mod.rs:83-90)
contains no `UnknownScheme` check at all — a request whose URL scheme is
`ftp` is dispatched to the plain-text exchange, not failed. -/
theorem c7_counterexample :
    Cl.scheme_dispatch (bytes "ftp") = .plainExchange ∧
    Cl.scheme_dispatch (bytes "ftp") ≠ .fail .UnknownScheme := by
  decide

/-- C7 (amended): the legacy ezhttp client fails every scheme other than
`http`/`https` with `UnknownScheme` without exchanging a request/response
pair with the target (src/src/ezhttp/client/mod.rs:139-156); the current
client treats every non-`https` scheme as plain http and never returns
`UnknownScheme`. -/
theorem c7_scheme_dispatch (s : BStr) (hh : s ≠ bytes "http") (hs : s ≠ bytes "https") :
    Ez.scheme_dispatch s = .fail .UnknownScheme ∧ Cl.scheme_dispatch s = .plainExchange := by
  constructor
  · simp [Ez.scheme_dispatch, hh, hs]
  · simp [Cl.scheme_dispatch, hs]

/-- Witness for C7 at the scheme `ws`. -/
theorem c7_witness :
    Ez.scheme_dispatch (bytes "ws") = .fail .UnknownScheme ∧
    Cl.scheme_dispatch (bytes "ws") = .plainExchange :=
  c7_scheme_dispatch (bytes "ws") (by decide) (by decide)

/-! ### Claim C10: request-target in origin form -/

/-- C10: `HttpRequest::send` (src/src/request.rs:267-295) writes the
request line as the method, a space, the URL's path with query and
fragment but with the `scheme://domain:port` root stripped, a space, and
`HTTP/1.1` CRLF; then the headers, a blank line, and the raw body.  The
root is stripped from a clone only (`send` takes `&self`), so the output
is the same whatever root the request's own URL carries — the second
conjunct states that serialization is invariant in the `root` field. -/
theorem c10_send_origin_form (r : Cl.HttpRequest) :
    Cl.HttpRequest.send_bytes r =
      r.method ++ bytes " " ++ Cl.URL.to_path_str r.url ++ bytes " HTTP/1.1\r\n" ++
        Cl.Headers.send_bytes r.headers ++ bytes "\r\n" ++ r.body.data ∧
    ∀ (rt : Cl.RootURL),
      Cl.HttpRequest.send_bytes { r with url := { r.url with root := some rt } } =
        Cl.HttpRequest.send_bytes { r with url := { r.url with root := none } } := by
  constructor
  · unfold Cl.HttpRequest.send_bytes Cl.URL.to_string
    simp [Cl.URL.to_path_str]
  · intro rt
    unfold Cl.HttpRequest.send_bytes Cl.URL.to_string
    simp [Cl.URL.to_path_str]

/-! ### Headers lemmas -/

theorem eraseIdx_append_cons {α : Type} (a : List α) (x : α) (b : List α) :
    (a ++ x :: b).eraseIdx a.length = a ++ b := by
  induction a with
  | nil => rfl
  | cons h t ih => simpa [List.eraseIdx] using ih

theorem clRemoveGo_spec (key : BStr) :
    ∀ (post kept : List (BStr × BStr)) (i c : Nat),
      c ≤ i → i - c = kept.length →
      Cl.Headers.removeGo key post i (kept ++ post) c =
        kept ++ post.filter (fun t => !(toLower t.1 == toLower key)) := by
  intro post
  induction post with
  | nil => intro kept i c _ _; simp [Cl.Headers.removeGo]
  | cons t rest ih =>
    intro kept i c hc hi
    by_cases hm : toLower t.1 = toLower key
    · simp only [Cl.Headers.removeGo, if_pos hm]
      have herase : (kept ++ t :: rest).eraseIdx (i - c) = kept ++ rest := by
        rw [hi]
        exact eraseIdx_append_cons kept t rest
      rw [herase]
      rw [ih kept (i + 1) (c + 1) (by omega) (by omega)]
      simp [List.filter_cons, hm]
    · simp only [Cl.Headers.removeGo, if_neg hm]
      have hre : kept ++ t :: rest = (kept ++ [t]) ++ rest := by simp
      rw [hre]
      rw [ih (kept ++ [t]) (i + 1) c (by omega) (by simp [List.length_append]; omega)]
      simp [List.filter_cons, hm]

theorem clGet_append (e1 e2 : List (BStr × BStr)) (k : BStr) :
    Cl.Headers.get ⟨e1 ++ e2⟩ k = Cl.Headers.get ⟨e1⟩ k ++ Cl.Headers.get ⟨e2⟩ k := by
  simp [Cl.Headers.get, List.filter_append]

theorem clGet_congr (h : Headers) (k1 k2 : BStr) (hk : toLower k1 = toLower k2) :
    Cl.Headers.get h k1 = Cl.Headers.get h k2 := by
  simp [Cl.Headers.get, hk]

theorem clGet_eq_nil (h : Headers) (k : BStr) :
    Cl.Headers.get h k = [] ↔ ∀ e ∈ h.entries, ¬(toLower e.1 = toLower k) := by
  simp [Cl.Headers.get, List.filter_eq_nil_iff]

theorem clGet_single_ne (k v name : BStr) (hlk : ¬(toLower k = toLower name)) :
    Cl.Headers.get ⟨[(k, v)]⟩ name = [] := by
  simp [Cl.Headers.get, hlk]

theorem clGet_single_eq (k v name : BStr) (hlk : toLower k = toLower name) :
    Cl.Headers.get ⟨[(k, v)]⟩ name = [v] := by
  simp [Cl.Headers.get, hlk]

theorem cl_put_default_get (h : Headers) (k v name : BStr)
    (hne : Cl.Headers.get h name ≠ []) :
    Cl.Headers.get (Cl.Headers.put_default h k v) name = Cl.Headers.get h name := by
  unfold Cl.Headers.put_default
  by_cases hk : Cl.Headers.get h k = []
  · rw [if_pos hk]
    have hsplit : Cl.Headers.get ⟨h.entries ++ [(k, v)]⟩ name =
        Cl.Headers.get ⟨h.entries⟩ name ++ Cl.Headers.get ⟨[(k, v)]⟩ name :=
      clGet_append h.entries [(k, v)] name
    by_cases hlk : toLower k = toLower name
    · exfalso
      apply hne
      rw [← clGet_congr h k name hlk]
      exact hk
    · rw [hsplit, clGet_single_ne k v name hlk]
      simp
  · rw [if_neg hk]

theorem cl_put_default_get_other (h : Headers) (k v name : BStr)
    (hlk : ¬(toLower k = toLower name)) :
    Cl.Headers.get (Cl.Headers.put_default h k v) name = Cl.Headers.get h name := by
  unfold Cl.Headers.put_default
  by_cases hk : Cl.Headers.get h k = []
  · rw [if_pos hk]
    rw [clGet_append h.entries [(k, v)] name, clGet_single_ne k v name hlk]
    simp
  · rw [if_neg hk]

theorem cl_fold_put_default_get (defaults : List (BStr × BStr)) :
    ∀ (h : Headers) (name : BStr), Cl.Headers.get h name ≠ [] →
      Cl.Headers.get
          (defaults.foldl (fun acc kv => Cl.Headers.put_default acc kv.1 kv.2) h) name =
        Cl.Headers.get h name := by
  induction defaults with
  | nil => intro h name _; rfl
  | cons kv rest ih =>
    intro h name hne
    simp only [List.foldl_cons]
    rw [ih (Cl.Headers.put_default h kv.1 kv.2) name
        (by rw [cl_put_default_get h kv.1 kv.2 name hne]; exact hne)]
    exact cl_put_default_get h kv.1 kv.2 name hne

theorem cl_fold_put_default_empty (defaults : List (BStr × BStr)) :
    ∀ (h : Headers) (name : BStr), Cl.Headers.get h name = [] →
      (∀ kv ∈ defaults, ¬(toLower kv.1 = toLower name)) →
      Cl.Headers.get
          (defaults.foldl (fun acc kv => Cl.Headers.put_default acc kv.1 kv.2) h) name = [] := by
  induction defaults with
  | nil => intro h name hh _; exact hh
  | cons kv rest ih =>
    intro h name hh hd
    simp only [List.foldl_cons]
    apply ih (Cl.Headers.put_default h kv.1 kv.2) name
    · rw [cl_put_default_get_other h kv.1 kv.2 name (hd kv (by simp))]
      exact hh
    · intro kv2 hm
      exact hd kv2 (by simp [hm])

theorem cl_put_default_absent (h : Headers) (k v name : BStr)
    (hk : Cl.Headers.get h k = []) (hlk : toLower k = toLower name) :
    Cl.Headers.get (Cl.Headers.put_default h k v) name = [v] := by
  unfold Cl.Headers.put_default
  rw [if_pos hk]
  rw [clGet_append h.entries [(k, v)] name, clGet_single_eq k v name hlk]
  have : Cl.Headers.get ⟨h.entries⟩ name = [] := by
    rw [← clGet_congr h k name hlk]
    exact hk
  rw [this]
  simp

theorem ez_put_get_same :
    ∀ (l : List (BStr × BStr)) (key val k2 : BStr), toLower k2 = toLower key →
      Ez.Headers.get ⟨Ez.Headers.putGo key val l⟩ k2 = some val := by
  intro l
  induction l with
  | nil =>
    intro key val k2 hk
    have hb : (toLower key == toLower k2) = true := by simp [hk.symm]
    simp [Ez.Headers.putGo, Ez.Headers.get, List.find?_cons, hb]
  | cons t rest ih =>
    intro key val k2 hk
    by_cases hm : toLower t.1 = toLower key
    · simp only [Ez.Headers.putGo, if_pos hm]
      have hb : (toLower t.1 == toLower k2) = true := by simp [hm, hk.symm]
      simp [Ez.Headers.get, List.find?_cons, hb]
    · simp only [Ez.Headers.putGo, if_neg hm]
      have hne : ¬(toLower t.1 = toLower k2) := by rw [hk]; exact hm
      have hb : (toLower t.1 == toLower k2) = false := by simp [hne]
      simp only [Ez.Headers.get, List.find?_cons, hb]
      exact ih key val k2 hk

theorem ez_put_get_other :
    ∀ (l : List (BStr × BStr)) (key val k2 : BStr), ¬(toLower k2 = toLower key) →
      Ez.Headers.get ⟨Ez.Headers.putGo key val l⟩ k2 = Ez.Headers.get ⟨l⟩ k2 := by
  intro l
  induction l with
  | nil =>
    intro key val k2 hk
    have hb : (toLower key == toLower k2) = false := by
      simp only [beq_eq_false_iff_ne, ne_eq]
      exact fun he => hk he.symm
    simp [Ez.Headers.putGo, Ez.Headers.get, List.find?_cons, hb]
  | cons t rest ih =>
    intro key val k2 hk
    by_cases hm : toLower t.1 = toLower key
    · simp only [Ez.Headers.putGo, if_pos hm]
      have hne : ¬(toLower t.1 = toLower k2) := by
        intro he
        exact hk (he.symm.trans hm)
      have hb : (toLower t.1 == toLower k2) = false := by simp [hne]
      simp [Ez.Headers.get, List.find?_cons, hb]
    · simp only [Ez.Headers.putGo, if_neg hm]
      by_cases hn : toLower t.1 = toLower k2
      · have hb : (toLower t.1 == toLower k2) = true := by simp [hn]
        simp [Ez.Headers.get, List.find?_cons, hb]
      · have hb : (toLower t.1 == toLower k2) = false := by simp [hn]
        simp only [Ez.Headers.get, List.find?_cons, hb]
        exact ih key val k2 hk

/-- `Ez.Headers.put` rephrasing of `ez_put_get_same`. -/
theorem ez_put_get_same_h (h : Headers) (key val k2 : BStr) (hk : toLower k2 = toLower key) :
    Ez.Headers.get (Ez.Headers.put h key val) k2 = some val :=
  ez_put_get_same h.entries key val k2 hk

/-- `Ez.Headers.put` rephrasing of `ez_put_get_other`. -/
theorem ez_put_get_other_h (h : Headers) (key val k2 : BStr) (hk : ¬(toLower k2 = toLower key)) :
    Ez.Headers.get (Ez.Headers.put h key val) k2 = Ez.Headers.get h k2 :=
  ez_put_get_other h.entries key val k2 hk

/-! ### Claim C8: Headers::remove -/

/-- C8 counterexample: in src/src/ezhttp/headers.rs:82-89 the remove loop
returns after the first removal, so with two case-insensitive duplicates
of the key an entry with that name remains — the claim says none may. -/
theorem c8_counterexample :
    (Ez.Headers.remove
        ⟨[(bytes "Set-Cookie", bytes "a"), (bytes "set-cookie", bytes "b")]⟩
        (bytes "set-cookie")).entries = [(bytes "set-cookie", bytes "b")] := by
  decide

/-- C8 (amended): in src/src/headers.rs:76-84, `Headers::remove(key)`
removes exactly the entries whose name equals the key case-insensitively —
however many duplicates are present — leaving the remaining entries in
their relative order: the result is the filter of the entry list.  (The
ezhttp variant removes only the first match, see the counterexample.) -/
theorem c8_remove_filter (h : Headers) (key : BStr) :
    (Cl.Headers.remove h key).entries =
      h.entries.filter (fun t => !(toLower t.1 == toLower key)) := by
  unfold Cl.Headers.remove
  have := clRemoveGo_spec key h.entries [] 0 0 (Nat.le_refl 0) rfl
  simpa using this

/-! ### Claim C4: client header preparation -/

/-- C4 counterexample: the current client's header preparation
(src/src/client/mod.rs:62) applies `Connection: close` with
`put_default`, so a caller-set `Connection: keep-alive` survives — the
claim says Connection is set to the canonical value `close`. -/
theorem c4_counterexample :
    Cl.Headers.get
        (Cl.prepare_headers ⟨[(bytes "Connection", bytes "keep-alive")]⟩ ⟨[]⟩
          (bytes "example.com") 0)
        (bytes "connection") = [bytes "keep-alive"] := by
  decide

/-- C4 (amended): in the current client (src/src/client/mod.rs:56-64) the
default headers AND the three computed headers are all applied as
fallbacks: (1) any header name the caller set keeps the caller's values;
(2)-(4) Connection/Host/Content-Length receive `close`/the URL's
domain/the body byte length exactly when absent from both the request and
the defaults.  The legacy ezhttp client (src/src/ezhttp/client/mod.rs:30)
instead forces `Connection: close` with `put` (conjunct (5)), and applies
defaults destructively. -/
theorem c4_prepare_headers (req defaults : Headers) (domain : BStr) (bodyLen : Nat) :
    (∀ name, Cl.Headers.get req name ≠ [] →
        Cl.Headers.get (Cl.prepare_headers req defaults domain bodyLen) name =
          Cl.Headers.get req name) ∧
    (Cl.Headers.get req (bytes "connection") = [] →
      Cl.Headers.get defaults (bytes "connection") = [] →
        Cl.Headers.get (Cl.prepare_headers req defaults domain bodyLen) (bytes "connection") =
          [bytes "close"]) ∧
    (Cl.Headers.get req (bytes "host") = [] →
      Cl.Headers.get defaults (bytes "host") = [] →
        Cl.Headers.get (Cl.prepare_headers req defaults domain bodyLen) (bytes "host") =
          [domain]) ∧
    (Cl.Headers.get req (bytes "content-length") = [] →
      Cl.Headers.get defaults (bytes "content-length") = [] →
        Cl.Headers.get (Cl.prepare_headers req defaults domain bodyLen)
          (bytes "content-length") = [natToDec bodyLen]) ∧
    Ez.Headers.get (Ez.prepare_headers req defaults domain bodyLen) (bytes "connection") =
      some (bytes "close") := by
  unfold Cl.prepare_headers
  refine ⟨?_, ?_, ?_, ?_, ?_⟩
  · intro name hne
    have hF := cl_fold_put_default_get defaults.entries req name hne
    have hFne : Cl.Headers.get
        (defaults.entries.foldl (fun acc kv => Cl.Headers.put_default acc kv.1 kv.2) req)
        name ≠ [] := by rw [hF]; exact hne
    rw [cl_put_default_get _ _ _ name (by rw [cl_put_default_get _ _ _ name (by
          rw [cl_put_default_get _ _ _ name hFne, hF]; exact hne),
        cl_put_default_get _ _ _ name hFne, hF]; exact hne)]
    rw [cl_put_default_get _ _ _ name (by rw [cl_put_default_get _ _ _ name hFne, hF]; exact hne)]
    rw [cl_put_default_get _ _ _ name hFne]
    exact hF
  · intro hreq hdef
    have hF : Cl.Headers.get
        (defaults.entries.foldl (fun acc kv => Cl.Headers.put_default acc kv.1 kv.2) req)
        (bytes "connection") = [] :=
      cl_fold_put_default_empty defaults.entries req (bytes "connection") hreq
        ((clGet_eq_nil defaults (bytes "connection")).mp hdef)
    rw [cl_put_default_get_other _ _ _ _ (by decide)]
    rw [cl_put_default_get_other _ _ _ _ (by decide)]
    apply cl_put_default_absent _ _ _ _ _ (by decide)
    rw [clGet_congr _ (bytes "Connection") (bytes "connection") (by decide)]
    exact hF
  · intro hreq hdef
    have hF : Cl.Headers.get
        (defaults.entries.foldl (fun acc kv => Cl.Headers.put_default acc kv.1 kv.2) req)
        (bytes "host") = [] :=
      cl_fold_put_default_empty defaults.entries req (bytes "host") hreq
        ((clGet_eq_nil defaults (bytes "host")).mp hdef)
    rw [cl_put_default_get_other _ _ _ _ (by decide)]
    apply cl_put_default_absent _ _ _ _ _ (by decide)
    rw [clGet_congr _ (bytes "Host") (bytes "host") (by decide)]
    rw [cl_put_default_get_other _ _ _ _ (by decide)]
    exact hF
  · intro hreq hdef
    have hF : Cl.Headers.get
        (defaults.entries.foldl (fun acc kv => Cl.Headers.put_default acc kv.1 kv.2) req)
        (bytes "content-length") = [] :=
      cl_fold_put_default_empty defaults.entries req (bytes "content-length") hreq
        ((clGet_eq_nil defaults (bytes "content-length")).mp hdef)
    apply cl_put_default_absent _ _ _ _ _ (by decide)
    rw [clGet_congr _ (bytes "Content-Length") (bytes "content-length") (by decide)]
    rw [cl_put_default_get_other _ _ _ _ (by decide)]
    rw [cl_put_default_get_other _ _ _ _ (by decide)]
    exact hF
  · show Ez.Headers.get
        (Ez.Headers.put
          (Ez.Headers.put
            (Ez.Headers.put
              (List.foldl (fun acc kv => Ez.Headers.put acc kv.1 kv.2) req defaults.entries)
              (bytes "Connection") (bytes "close"))
            (bytes "Host") domain)
          (bytes "Content-Length") (natToDec bodyLen))
        (bytes "connection") = some (bytes "close")
    rw [ez_put_get_other_h _ (bytes "Content-Length") (natToDec bodyLen) (bytes "connection")
      (by decide)]
    rw [ez_put_get_other_h _ (bytes "Host") domain (bytes "connection") (by decide)]
    exact ez_put_get_same_h _ (bytes "Connection") (bytes "close") (bytes "connection") (by decide)

/-- Witness for C4: a request carrying only `X-Custom: 1` against an
empty default set and a two-byte body. -/
theorem c4_witness :
    Cl.Headers.get
        (Cl.prepare_headers ⟨[(bytes "X-Custom", bytes "1")]⟩ ⟨[]⟩ (bytes "example.com") 2)
        (bytes "x-custom") = [bytes "1"] ∧
    Cl.Headers.get
        (Cl.prepare_headers ⟨[(bytes "X-Custom", bytes "1")]⟩ ⟨[]⟩ (bytes "example.com") 2)
        (bytes "connection") = [bytes "close"] ∧
    Cl.Headers.get
        (Cl.prepare_headers ⟨[(bytes "X-Custom", bytes "1")]⟩ ⟨[]⟩ (bytes "example.com") 2)
        (bytes "host") = [bytes "example.com"] ∧
    Ez.Headers.get
        (Ez.prepare_headers ⟨[(bytes "X-Custom", bytes "1")]⟩ ⟨[]⟩ (bytes "example.com") 2)
        (bytes "connection") = some (bytes "close") :=
  ⟨(c4_prepare_headers ⟨[(bytes "X-Custom", bytes "1")]⟩ ⟨[]⟩ (bytes "example.com") 2).1
      (bytes "x-custom") (by decide),
   (c4_prepare_headers ⟨[(bytes "X-Custom", bytes "1")]⟩ ⟨[]⟩ (bytes "example.com") 2).2.1
      (by decide) (by decide),
   (c4_prepare_headers ⟨[(bytes "X-Custom", bytes "1")]⟩ ⟨[]⟩ (bytes "example.com") 2).2.2.1
      (by decide) (by decide),
   (c4_prepare_headers ⟨[(bytes "X-Custom", bytes "1")]⟩ ⟨[]⟩ (bytes "example.com") 2).2.2.2.2⟩

/-! ### Claim C9: CONNECT tunnel negotiation -/

/-- C9: for an `Http`/`Https` proxy, `connect_stream`
(src/src/client/mod.rs:27-34) writes exactly
`CONNECT host:port HTTP/1.1` CRLF `Host: host:port` CRLF, then
`Proxy-Authorization: basic base64(user:pass)` CRLF exactly when
credentials are configured, then a final CRLF (first conjunct); it then
reads one full HTTP response from the proxy and discards it — a reply
that fails to parse as a complete response maps to `ConnectError` (second
conjunct), and any complete response, whatever its status line says,
yields the tunnel (third conjunct: the status code is never inspected). -/
theorem c9_connect_tunnel (siteHost : BStr) (auth : Option (BStr × BStr)) (proxyReply : BStr) :
    ((Cl.connect_stream_http siteHost auth proxyReply).1 =
      bytes "CONNECT " ++ siteHost ++ bytes " HTTP/1.1" ++ bytes "\r\n" ++
        bytes "Host: " ++ siteHost ++ bytes "\r\n" ++
        (match auth with
         | some up => bytes "Proxy-Authorization: basic " ++
             base64Encode (up.1 ++ bytes ":" ++ up.2) ++ bytes "\r\n"
         | none => []) ++ bytes "\r\n") ∧
    ((∃ e, Ez.HttpResponse.read proxyReply = .error e) →
      (Cl.connect_stream_http siteHost auth proxyReply).2 = .error (.err .ConnectError)) ∧
    (∀ resp rest, Ez.HttpResponse.read proxyReply = .ok (resp, rest) →
      (Cl.connect_stream_http siteHost auth proxyReply).2 = .ok rest) := by
  refine ⟨?_, ?_, ?_⟩
  · have hlit : bytes " HTTP/1.1\r\nHost: " =
        bytes " HTTP/1.1" ++ bytes "\r\n" ++ bytes "Host: " := by decide
    have hcolon : bytes ":" = ([58] : BStr) := by decide
    cases auth with
    | none =>
      show Cl.connect_request_bytes siteHost none = _
      unfold Cl.connect_request_bytes
      rw [hlit]
      simp [List.append_assoc]
    | some up =>
      show Cl.connect_request_bytes siteHost (some up) = _
      unfold Cl.connect_request_bytes
      rw [hlit, hcolon]
      simp [List.append_assoc]
  · intro ⟨e, he⟩
    show (match Ez.HttpResponse.read proxyReply with
          | .ok pr => Except.ok pr.2
          | .error _ => Except.error (RError.err HttpError.ConnectError)) = _
    rw [he]
  · intro resp rest hok
    show (match Ez.HttpResponse.read proxyReply with
          | .ok pr => Except.ok pr.2
          | .error _ => Except.error (RError.err HttpError.ConnectError)) = _
    rw [hok]

/-- Witness for C9: a 500-status proxy reply still yields the tunnel (its
status code is not inspected), a garbage reply maps to `ConnectError`. -/
theorem c9_witness :
    (Cl.connect_stream_http (bytes "h:80") (some (bytes "user", bytes "pass"))
        (bytes "HTTP/1.1 500 ERR\r\n\r\n")).2 = .ok [] ∧
    (Cl.connect_stream_http (bytes "h:80") none (bytes "garbage")).2 =
      .error (.err .ConnectError) :=
  ⟨(c9_connect_tunnel (bytes "h:80") (some (bytes "user", bytes "pass"))
      (bytes "HTTP/1.1 500 ERR\r\n\r\n")).2.2 ⟨⟨[]⟩, bytes "500 ERR", []⟩ [] (by decide),
   (c9_connect_tunnel (bytes "h:80") none (bytes "garbage")).2.1
      ⟨.err .InvalidStatus, by decide⟩⟩

/-! ### Query-string round-trip lemmas -/

theorem intercalate_single (sep a : BStr) : List.intercalate sep [a] = a := by
  simp [List.intercalate]

theorem intercalate_cons2 (sep a b : BStr) (t : List BStr) :
    List.intercalate sep (a :: b :: t) = a ++ sep ++ List.intercalate sep (b :: t) := by
  simp [List.intercalate, List.intersperse]

theorem notin_intercalate (x : Nat) (sep : BStr) (hx : x ∉ sep) :
    ∀ (pieces : List BStr), pieces ≠ [] → (∀ p ∈ pieces, x ∉ p) →
      x ∉ List.intercalate sep pieces := by
  intro pieces
  induction pieces with
  | nil => intro h; exact absurd rfl h
  | cons a t ih =>
    intro _ hall
    cases t with
    | nil =>
      rw [intercalate_single]
      exact hall a (by simp)
    | cons b t2 =>
      rw [intercalate_cons2]
      intro hmem
      rcases List.mem_append.mp hmem with hmem2 | hmem2
      · rcases List.mem_append.mp hmem2 with hmem3 | hmem3
        · exact hall a (by simp) hmem3
        · exact hx hmem3
      · exact ih (by simp) (fun p hp => hall p (by simp [hp])) hmem2

theorem intercalate_pair_ne_nil (sep : BStr) (q : List (BStr × BStr)) (hq : q ≠ []) :
    List.intercalate sep
      (q.map (fun o => urlEncode o.1 ++ bytes "=" ++ urlEncode o.2)) ≠ [] := by
  cases q with
  | nil => exact absurd rfl hq
  | cons kv t =>
    cases t with
    | nil =>
      rw [List.map_cons, List.map_nil, intercalate_single]
      simp [bytes]
    | cons kv2 t2 =>
      rw [List.map_cons, List.map_cons, intercalate_cons2]
      simp [bytes]

theorem splitAll_intercalate (x : Nat) :
    ∀ (pieces : List BStr), pieces ≠ [] → (∀ p ∈ pieces, x ∉ p) →
      splitAll (List.intercalate [x] pieces) [x] = pieces := by
  intro pieces
  induction pieces with
  | nil => intro h; exact absurd rfl h
  | cons a t ih =>
    intro _ hall
    cases t with
    | nil =>
      rw [intercalate_single]
      exact splitAll_single x [] a (hall a (by simp))
    | cons b t2 =>
      rw [intercalate_cons2]
      rw [splitAll_append [x] (by simp) a (List.intercalate [x] (b :: t2))
          (notin_noEarlyOcc x [] a (hall a (by simp)))]
      rw [ih (by simp) (fun p hp => hall p (by simp [hp]))]

theorem filterMap_id_of {α : Type} (f : α → Option α) :
    ∀ (l : List α), (∀ a ∈ l, f a = some a) → l.filterMap f = l := by
  intro l
  induction l with
  | nil => intro _; rfl
  | cons x xs ih =>
    intro h
    rw [List.filterMap_cons, h x (by simp)]
    rw [ih (fun a ha => h a (by simp [ha]))]

theorem hmFromList_go (rest : List (BStr × BStr)) :
    ∀ (acc : List (BStr × BStr)),
      ((acc ++ rest).map Prod.fst).Nodup →
      rest.foldl Cl.hmInsert acc = acc ++ rest := by
  induction rest with
  | nil => intro acc _; simp
  | cons kv t ih =>
    intro acc hnd
    simp only [List.foldl_cons]
    have hfresh : Cl.hmInsert acc kv = acc ++ [kv] := by
      unfold Cl.hmInsert
      rw [if_neg]
      simp only [List.any_eq_true, beq_iff_eq, not_exists, not_and]
      intro e he heq
      have hdisj := (List.nodup_append.mp (by simpa using hnd)).2.2
      have h1 : kv.1 ∈ (acc.map Prod.fst) := heq ▸ List.mem_map_of_mem Prod.fst he
      exact hdisj h1 (by simp)
    rw [hfresh]
    rw [ih (acc ++ [kv]) (by simpa using hnd)]
    simp

theorem hmFromList_nodup (q : List (BStr × BStr)) (h : (q.map Prod.fst).Nodup) :
    Cl.hmFromList q = q := by
  unfold Cl.hmFromList
  have := hmFromList_go q [] (by simpa using h)
  simpa using this

theorem queryPairDecode_enc (k v : BStr) (hkb : ∀ b ∈ k, b < 256) (hvb : ∀ b ∈ v, b < 256)
    (hku : isUtf8 k = true) (hvu : isUtf8 v = true) :
    Cl.queryPairDecode (urlEncode k ++ bytes "=" ++ urlEncode v) = some (k, v) := by
  have h61 : bytes "=" = ([61] : BStr) := by decide
  have hsp : splitOnce (urlEncode k ++ bytes "=" ++ urlEncode v) (bytes "=") =
      some (urlEncode k, urlEncode v) := by
    rw [h61]
    exact splitOnce_append [61] (by simp) (urlEncode k) (urlEncode v)
      (notin_noEarlyOcc 61 [] (urlEncode k)
        (urlEncode_not_mem 61 (by decide) (by decide) (by decide) (by decide) k hkb))
  unfold Cl.queryPairDecode
  rw [hsp]
  simp only [Option.getD_some]
  rw [urlDecode_encode k hkb hku, urlDecode_encode v hvb hvu]

theorem enc_piece_no38 (q : List (BStr × BStr))
    (hb : ∀ kv ∈ q, (∀ b ∈ kv.1, b < 256) ∧ (∀ b ∈ kv.2, b < 256)) :
    ∀ p ∈ q.map (fun o => urlEncode o.1 ++ bytes "=" ++ urlEncode o.2), (38 : Nat) ∉ p := by
  intro p hp
  rcases List.mem_map.mp hp with ⟨kv, hkv, hpe⟩
  subst hpe
  intro hmem
  rcases List.mem_append.mp hmem with h1 | h1
  · rcases List.mem_append.mp h1 with h2 | h2
    · exact urlEncode_not_mem 38 (by decide) (by decide) (by decide) (by decide)
        kv.1 (hb kv hkv).1 h2
    · rw [show bytes "=" = ([61] : BStr) from by decide] at h2
      simp at h2
  · exact urlEncode_not_mem 38 (by decide) (by decide) (by decide) (by decide)
      kv.2 (hb kv hkv).2 h1

theorem query_roundtrip (q : List (BStr × BStr)) (hq : q ≠ [])
    (hb : ∀ kv ∈ q, (∀ b ∈ kv.1, b < 256) ∧ (∀ b ∈ kv.2, b < 256) ∧
            isUtf8 kv.1 = true ∧ isUtf8 kv.2 = true)
    (hnd : (q.map Prod.fst).Nodup) :
    Cl.hmFromList ((splitAll (List.intercalate (bytes "&")
        (q.map (fun o => urlEncode o.1 ++ bytes "=" ++ urlEncode o.2)))
      (bytes "&")).filterMap Cl.queryPairDecode) = q := by
  have h38 : bytes "&" = ([38] : BStr) := by decide
  rw [h38]
  rw [splitAll_intercalate 38 _ (by simpa using hq)
      (enc_piece_no38 q (fun kv hkv => ⟨(hb kv hkv).1, (hb kv hkv).2.1⟩))]
  rw [List.filterMap_map]
  rw [show (Cl.queryPairDecode ∘ fun o : BStr × BStr =>
        urlEncode o.1 ++ bytes "=" ++ urlEncode o.2) =
      (fun kv : BStr × BStr =>
        Cl.queryPairDecode (urlEncode kv.1 ++ bytes "=" ++ urlEncode kv.2)) from rfl]
  rw [filterMap_id_of _ q (fun kv hkv =>
      queryPairDecode_enc kv.1 kv.2 (hb kv hkv).1 (hb kv hkv).2.1
        (hb kv hkv).2.2.1 (hb kv hkv).2.2.2)]
  exact hmFromList_nodup q hnd

theorem enc_piece_notin (x : Nat) (hx1 : isUnreservedByte x = false) (hx2 : x ≠ 37)
    (hx3 : ¬(48 ≤ x ∧ x ≤ 57)) (hx4 : ¬(65 ≤ x ∧ x ≤ 70)) (hx61 : x ≠ 61)
    (q : List (BStr × BStr))
    (hb : ∀ kv ∈ q, (∀ b ∈ kv.1, b < 256) ∧ (∀ b ∈ kv.2, b < 256)) :
    ∀ p ∈ q.map (fun o => urlEncode o.1 ++ bytes "=" ++ urlEncode o.2), x ∉ p := by
  intro p hp
  rcases List.mem_map.mp hp with ⟨kv, hkv, hpe⟩
  subst hpe
  intro hmem
  rcases List.mem_append.mp hmem with h1 | h1
  · rcases List.mem_append.mp h1 with h2 | h2
    · exact urlEncode_not_mem x hx1 hx2 hx3 hx4 kv.1 (hb kv hkv).1 h2
    · rw [show bytes "=" = ([61] : BStr) from by decide] at h2
      simp at h2
      exact hx61 h2
  · exact urlEncode_not_mem x hx1 hx2 hx3 hx4 kv.2 (hb kv hkv).2 h1

theorem qs_notin (x : Nat) (hx1 : isUnreservedByte x = false) (hx2 : x ≠ 37)
    (hx3 : ¬(48 ≤ x ∧ x ≤ 57)) (hx4 : ¬(65 ≤ x ∧ x ≤ 70)) (hx61 : x ≠ 61) (hx38 : x ≠ 38)
    (q : List (BStr × BStr)) (hq : q ≠ [])
    (hb : ∀ kv ∈ q, (∀ b ∈ kv.1, b < 256) ∧ (∀ b ∈ kv.2, b < 256)) :
    x ∉ List.intercalate (bytes "&")
      (q.map (fun o => urlEncode o.1 ++ bytes "=" ++ urlEncode o.2)) := by
  apply notin_intercalate x (bytes "&")
    (by rw [show bytes "&" = ([38] : BStr) from by decide]; simp [hx38])
  · simpa using hq
  · exact enc_piece_notin x hx1 hx2 hx3 hx4 hx61 q hb

theorem from_path_str_roundtrip (path : BStr) (anchor : Option BStr)
    (query : List (BStr × BStr))
    (hp35 : (35 : Nat) ∉ path) (hp63 : (63 : Nat) ∉ path)
    (ha : anchor ≠ some [])
    (hb : ∀ kv ∈ query, (∀ b ∈ kv.1, b < 256) ∧ (∀ b ∈ kv.2, b < 256) ∧
            isUtf8 kv.1 = true ∧ isUtf8 kv.2 = true)
    (hnd : (query.map Prod.fst).Nodup) :
    Cl.URL.from_path_str (Cl.URL.to_path_str ⟨none, path, anchor, query⟩) =
      some ⟨none, path, anchor, query⟩ := by
  have h35 : bytes "#" = ([35] : BStr) := by decide
  have h63 : bytes "?" = ([63] : BStr) := by decide
  cases anchor with
  | none =>
    cases hqe : query with
    | nil =>
      have ht : Cl.URL.to_path_str ⟨none, path, none, []⟩ = path := by
        simp [Cl.URL.to_path_str]
      rw [ht]
      unfold Cl.URL.from_path_str
      rw [h35, h63, splitOnce_eq_none 35 [] path hp35]
      simp only [Option.getD_none]
      rw [splitOnce_eq_none 63 [] path hp63]
      simp

    | cons kv qt =>
      subst hqe
      have hqne : (kv :: qt : List (BStr × BStr)) ≠ [] := by simp
      have hb2 : ∀ p ∈ (kv :: qt).map (fun o => urlEncode o.1 ++ bytes "=" ++ urlEncode o.2),
          (∀ b ∈ kv.1, b < 256) → True := fun _ _ _ => trivial
      have ht : Cl.URL.to_path_str ⟨none, path, none, kv :: qt⟩ =
          path ++ [63] ++ List.intercalate (bytes "&")
            ((kv :: qt).map (fun o => urlEncode o.1 ++ bytes "=" ++ urlEncode o.2)) := by
        simp [Cl.URL.to_path_str, h63]
      rw [ht]
      have hq35 : (35 : Nat) ∉ path ++ [63] ++ List.intercalate (bytes "&")
          ((kv :: qt).map (fun o => urlEncode o.1 ++ bytes "=" ++ urlEncode o.2)) := by
        intro hm
        rcases List.mem_append.mp hm with h1 | h1
        · rcases List.mem_append.mp h1 with h2 | h2
          · exact hp35 h2
          · simp at h2
        · exact qs_notin 35 (by decide) (by decide) (by decide) (by decide) (by decide)
            (by decide) (kv :: qt) hqne
            (fun kv2 hkv2 => ⟨(hb kv2 hkv2).1, (hb kv2 hkv2).2.1⟩) h1
      unfold Cl.URL.from_path_str
      rw [h35, h63, splitOnce_eq_none 35 [] _ hq35]
      simp only [Option.getD_none]
      rw [splitOnce_append [63] (by simp) path _
          (notin_noEarlyOcc 63 [] path hp63)]
      simp only [Option.getD_some]
      have hqs_ne := intercalate_pair_ne_nil (bytes "&") (kv :: qt) hqne
      have hqrt := query_roundtrip (kv :: qt) hqne hb hnd
      simp only [List.map_cons, List.append_assoc] at hqs_ne hqrt
      simp [hqs_ne, hqrt]

  | some a =>
    have hane : a ≠ [] := fun he => ha (by rw [he])
    cases hqe : query with
    | nil =>
      have ht : Cl.URL.to_path_str ⟨none, path, some a, []⟩ = path ++ [35] ++ a := by
        simp [Cl.URL.to_path_str, h35]
      rw [ht]
      unfold Cl.URL.from_path_str
      rw [h35, h63]
      rw [splitOnce_append [35] (by simp) path a (notin_noEarlyOcc 35 [] path hp35)]
      simp only [Option.getD_some]
      rw [splitOnce_eq_none 63 [] path hp63]
      simp [hane]

    | cons kv qt =>
      subst hqe
      have hqne : (kv :: qt : List (BStr × BStr)) ≠ [] := by simp
      have ht : Cl.URL.to_path_str ⟨none, path, some a, kv :: qt⟩ =
          (path ++ [63] ++ List.intercalate (bytes "&")
            ((kv :: qt).map (fun o => urlEncode o.1 ++ bytes "=" ++ urlEncode o.2)))
            ++ [35] ++ a := by
        simp [Cl.URL.to_path_str, h35, h63]
      rw [ht]
      have hq35 : noEarlyOcc [35] (path ++ [63] ++ List.intercalate (bytes "&")
          ((kv :: qt).map (fun o => urlEncode o.1 ++ bytes "=" ++ urlEncode o.2))) := by
        apply notin_noEarlyOcc
        intro hm
        rcases List.mem_append.mp hm with h1 | h1
        · rcases List.mem_append.mp h1 with h2 | h2
          · exact hp35 h2
          · simp at h2
        · exact qs_notin 35 (by decide) (by decide) (by decide) (by decide) (by decide)
            (by decide) (kv :: qt) hqne
            (fun kv2 hkv2 => ⟨(hb kv2 hkv2).1, (hb kv2 hkv2).2.1⟩) h1
      unfold Cl.URL.from_path_str
      rw [h35, h63]
      rw [splitOnce_append [35] (by simp) _ a hq35]
      simp only [Option.getD_some]
      rw [splitOnce_append [63] (by simp) path _
          (notin_noEarlyOcc 63 [] path hp63)]
      simp only [Option.getD_some]
      have hqs_ne := intercalate_pair_ne_nil (bytes "&") (kv :: qt) hqne
      have hqrt := query_roundtrip (kv :: qt) hqne hb hnd
      simp only [List.map_cons, List.append_assoc] at hqs_ne hqrt
      simp [hqs_ne, hqrt, hane]

theorem rootURL_to_string_eq (scheme domain : BStr) (port : Nat) :
    Cl.RootURL.to_string ⟨scheme, domain, port⟩ =
      scheme ++ bytes "://" ++
        (if (scheme == bytes "http" && port == 80) || (scheme == bytes "https" && port == 443)
         then domain
         else domain ++ bytes ":" ++ natToDec port) := rfl

theorem rootURL_roundtrip (r : Cl.RootURL)
    (hscheme : r.scheme = bytes "http" ∨ r.scheme = bytes "https")
    (hdom : ∀ b ∈ r.domain, b ≠ 58 ∧ b ≠ 47)
    (hport : r.port < 65536) :
    Cl.RootURL.from_str (Cl.RootURL.to_string r) = .ok r := by
  obtain ⟨scheme, domain, port⟩ := r
  simp only at hscheme hdom hport
  have h58 : (58 : Nat) ∉ domain := fun hm => (hdom 58 hm).1 rfl
  have hsplit : ∀ (H : BStr),
      splitOnce (scheme ++ bytes "://" ++ H) (bytes "://") = some (scheme, H) := by
    intro H
    rw [show bytes "://" = ([58, 47, 47] : BStr) from by decide]
    apply splitOnce_append [58, 47, 47] (by simp) scheme H
    rcases hscheme with h | h <;> subst h <;> decide
  have hsplitdom := splitOnce_eq_none 58 [] domain h58
  have hsplitport : splitOnce (domain ++ bytes ":" ++ natToDec port) (bytes ":") =
      some (domain, natToDec port) := by
    rw [show bytes ":" = ([58] : BStr) from by decide]
    exact splitOnce_append [58] (by simp) domain (natToDec port)
      (notin_noEarlyOcc 58 [] domain h58)
  have hpp : parseU16 (natToDec port) = some port := by
    unfold parseU16
    exact parse_natToDec (2 ^ 16) port (by omega)
  rw [rootURL_to_string_eq]
  rcases hscheme with h | h <;> subst h
  · by_cases hdef : port = 80
    · subst hdef
      rw [if_pos (by decide)]
      unfold Cl.RootURL.from_str
      simp only [hsplit domain]
      rw [show bytes ":" = ([58] : BStr) from by decide]
      simp only [hsplitdom]
      rw [if_neg (by decide)]
      simp [show parseU16 (bytes "80") = some 80 from by decide]

    · have hb80 : (port == 80) = false := by simp [hdef]
      rw [if_neg (by
        simp only [Bool.or_eq_true, Bool.and_eq_true, beq_iff_eq, not_or, not_and]
        exact ⟨fun _ => hdef, fun h => absurd h (by decide)⟩)]
      unfold Cl.RootURL.from_str
      simp only [hsplit (domain ++ bytes ":" ++ natToDec port)]
      simp only [hsplitport, hpp]

  · by_cases hdef : port = 443
    · subst hdef
      rw [if_pos (by decide)]
      unfold Cl.RootURL.from_str
      simp only [hsplit domain]
      rw [show bytes ":" = ([58] : BStr) from by decide]
      simp only [hsplitdom]
      simp [show parseU16 (bytes "443") = some 443 from by decide]

    · have hb443 : (port == 443) = false := by simp [hdef]
      rw [if_neg (by
        simp only [Bool.or_eq_true, Bool.and_eq_true, beq_iff_eq, not_or, not_and]
        exact ⟨fun h => absurd h (by decide), fun _ => hdef⟩)]
      unfold Cl.RootURL.from_str
      simp only [hsplit (domain ++ bytes ":" ++ natToDec port)]
      simp only [hsplitport, hpp]

theorem isPrefixOf_cons_ne (a b : Nat) (l1 l2 : List Nat) (h : (a == b) = false) :
    (a :: l1).isPrefixOf (b :: l2) = false := by
  simp [List.isPrefixOf, h]

theorem from_str_decompose (scheme H T : BStr)
    (hsch : scheme = bytes "http" ∨ scheme = bytes "https")
    (hH47 : (47 : Nat) ∉ H) :
    Cl.URL.from_str (scheme ++ bytes "://" ++ (H ++ (47 :: T))) =
      (match Cl.URL.from_path_str (bytes "/" ++ T) with
       | none => Except.error HttpError.UrlError
       | some u =>
         match Cl.RootURL.from_str (scheme ++ bytes "://" ++ H) with
         | .error e => .error e
         | .ok r => .ok { u with root := some r }) := by
  have hpre : ((bytes "/").isPrefixOf (scheme ++ bytes "://" ++ (H ++ (47 :: T)))) = false := by
    rcases hsch with h | h <;> subst h
    · rw [show bytes "/" = ([47] : BStr) from by decide,
         show bytes "http" ++ bytes "://" = ([104, 116, 116, 112, 58, 47, 47] : BStr)
           from by decide]
      simp only [List.cons_append]
      exact isPrefixOf_cons_ne 47 104 [] _ (by decide)
    · rw [show bytes "/" = ([47] : BStr) from by decide,
         show bytes "https" ++ bytes "://" = ([104, 116, 116, 112, 115, 58, 47, 47] : BStr)
           from by decide]
      simp only [List.cons_append]
      exact isPrefixOf_cons_ne 47 104 [] _ (by decide)
  have hsplit1 : splitOnce (scheme ++ bytes "://" ++ (H ++ (47 :: T))) (bytes "://") =
      some (scheme, H ++ (47 :: T)) := by
    rw [show bytes "://" = ([58, 47, 47] : BStr) from by decide]
    apply splitOnce_append [58, 47, 47] (by simp) scheme _
    rcases hsch with h | h <;> subst h <;> decide
  have hsplit2 : splitOnce (H ++ (47 :: T)) (bytes "/") = some (H, T) := by
    rw [show bytes "/" = ([47] : BStr) from by decide,
       show H ++ (47 :: T) = H ++ [47] ++ T from by simp]
    exact splitOnce_append [47] (by simp) H T (notin_noEarlyOcc 47 [] H hH47)
  unfold Cl.URL.from_str
  rw [if_neg (by simp only [hpre]; exact Bool.false_ne_true)]
  simp only [hsplit1, hsplit2]

/-- C2: a valid absolute URL — scheme `http` or `https`, a `:`/`/`-free
domain, a 16-bit port, a path starting with `/` and free of `#`/`?`, a
nonempty fragment when present, and a query map of percent-encodable,
valid-UTF-8 keys and values with pairwise-distinct keys — survives
`URL::to_string` followed by `URL::from_str` unchanged; the query is
stated on the association-list representative of the `HashMap`, so the
round trip is up to the map's unspecified iteration order. -/
theorem c2_url_roundtrip (u : Cl.URL) (r : Cl.RootURL) (pr : BStr)
    (hroot : u.root = some r) (hpath : u.path = 47 :: pr)
    (hscheme : r.scheme = bytes "http" ∨ r.scheme = bytes "https")
    (hdom : ∀ b ∈ r.domain, b ≠ 58 ∧ b ≠ 47)
    (hport : r.port < 65536)
    (hp35 : (35 : Nat) ∉ u.path) (hp63 : (63 : Nat) ∉ u.path)
    (ha : u.anchor ≠ some [])
    (hb : ∀ kv ∈ u.query, (∀ b ∈ kv.1, b < 256) ∧ (∀ b ∈ kv.2, b < 256) ∧
            isUtf8 kv.1 = true ∧ isUtf8 kv.2 = true)
    (hnd : (u.query.map Prod.fst).Nodup) :
    Cl.URL.from_str (Cl.URL.to_string u) = .ok u := by
  obtain ⟨root, path, anchor, query⟩ := u
  obtain ⟨scheme, domain, port⟩ := r
  simp only at hroot hpath hscheme hdom hport hp35 hp63 ha hb hnd
  subst hroot hpath
  have hH47 : (47 : Nat) ∉ (if (scheme == bytes "http" && port == 80) ||
      (scheme == bytes "https" && port == 443) then domain
      else domain ++ bytes ":" ++ natToDec port) := by
    split
    · exact fun hm => (hdom 47 hm).2 rfl
    · intro hm
      rcases List.mem_append.mp hm with h1 | h1
      · rcases List.mem_append.mp h1 with h2 | h2
        · exact (hdom 47 h2).2 rfl
        · rw [show bytes ":" = ([58] : BStr) from by decide] at h2
          simp at h2
      · have := natToDecF_digits (port + 1) port 47 h1
        omega
  have hts : Cl.URL.to_string ⟨some ⟨scheme, domain, port⟩, 47 :: pr, anchor, query⟩ =
      scheme ++ bytes "://" ++
        ((if (scheme == bytes "http" && port == 80) ||
            (scheme == bytes "https" && port == 443) then domain
          else domain ++ bytes ":" ++ natToDec port) ++
         (47 :: Cl.URL.to_path_str ⟨none, pr, anchor, query⟩)) := by
    rw [show Cl.URL.to_string ⟨some ⟨scheme, domain, port⟩, 47 :: pr, anchor, query⟩ =
        Cl.RootURL.to_string ⟨scheme, domain, port⟩ ++
          (47 :: Cl.URL.to_path_str ⟨none, pr, anchor, query⟩) from rfl]
    rw [rootURL_to_string_eq]
    simp [List.append_assoc]
  rw [hts]
  rw [from_str_decompose scheme _ _ hscheme hH47]
  have hfp : Cl.URL.from_path_str (bytes "/" ++ Cl.URL.to_path_str ⟨none, pr, anchor, query⟩) =
      some ⟨none, 47 :: pr, anchor, query⟩ := by
    rw [show bytes "/" ++ Cl.URL.to_path_str ⟨none, pr, anchor, query⟩ =
        Cl.URL.to_path_str ⟨none, 47 :: pr, anchor, query⟩ from rfl]
    exact from_path_str_roundtrip (47 :: pr) anchor query hp35 hp63 ha hb hnd
  rw [hfp]
  rw [show (scheme ++ bytes "://" ++
      (if (scheme == bytes "http" && port == 80) ||
          (scheme == bytes "https" && port == 443) then domain
        else domain ++ bytes ":" ++ natToDec port)) =
      Cl.RootURL.to_string ⟨scheme, domain, port⟩ from (rootURL_to_string_eq _ _ _).symm]
  rw [rootURL_roundtrip ⟨scheme, domain, port⟩ hscheme hdom hport]

/-- Witness for C2 at the URL `https://meex.lol:456/dku?key=value&key2=value2#hex_id`
(the repository's own URL test case). -/
theorem c2_witness :
    Cl.URL.from_str (Cl.URL.to_string
      ⟨some ⟨bytes "https", bytes "meex.lol", 456⟩, bytes "/dku", some (bytes "hex_id"),
        [(bytes "key", bytes "value"), (bytes "key2", bytes "value2")]⟩) =
      .ok ⟨some ⟨bytes "https", bytes "meex.lol", 456⟩, bytes "/dku", some (bytes "hex_id"),
        [(bytes "key", bytes "value"), (bytes "key2", bytes "value2")]⟩ :=
  c2_url_roundtrip
    ⟨some ⟨bytes "https", bytes "meex.lol", 456⟩, bytes "/dku", some (bytes "hex_id"),
      [(bytes "key", bytes "value"), (bytes "key2", bytes "value2")]⟩
    ⟨bytes "https", bytes "meex.lol", 456⟩ (bytes "dku")
    (by decide) (by decide) (by decide) (by decide) (by decide) (by decide) (by decide)
    (by decide) (by decide) (by decide)

theorem encTail_decomp (p : Ez.Part) :
    Ez.encTail p = Ez.headOf p ++ bytes "\r\n\r\n" ++ p.body.data := by
  obtain ⟨name, body, fn, ct⟩ := p
  cases fn <;> cases ct <;>
    simp only [Ez.encTail, Ez.headOf] <;>
    rw [show bytes "\r\n\r\n" = bytes "\r\n" ++ bytes "\r\n" from by decide] <;>
    simp [List.append_assoc]
  · rw [show bytes "\r\nContent-Type: " = bytes "\r\n" ++ bytes "Content-Type: " from by decide]
    simp [List.append_assoc]
  · rw [show bytes "\r\nContent-Type: " = bytes "\r\n" ++ bytes "Content-Type: " from by decide]
    simp [List.append_assoc]

theorem splitAll_last (pat : BStr) (s : BStr) (h : splitOnce s pat = none) :
    splitAll s pat = [s] := by
  unfold splitAll
  cases hl : s.length with
  | zero => simp only [splitAllF]; rw [h]
  | succ n => simp only [splitAllF]; rw [h]

theorem splitAll_chain_from (pat : BStr) (hne : pat ≠ []) (term : BStr)
    (hterm : splitOnce term pat = none) :
    ∀ (ts : List BStr), (∀ t ∈ ts, noEarlyOcc pat t) → ∀ (t0 : BStr), noEarlyOcc pat t0 →
      splitAll (t0 ++ ((ts.map (fun t => pat ++ t)).join ++ (pat ++ term))) pat =
        t0 :: (ts ++ [term]) := by
  intro ts
  induction ts with
  | nil =>
    intro _ t0 h0
    rw [show t0 ++ ((([] : List BStr).map (fun t => pat ++ t)).join ++ (pat ++ term)) =
        t0 ++ pat ++ term from by simp]
    rw [splitAll_append pat hne t0 term h0, splitAll_last pat term hterm]
    simp
  | cons t ts2 ih =>
    intro hall t0 h0
    rw [show t0 ++ (((t :: ts2).map (fun t => pat ++ t)).join ++ (pat ++ term)) =
        t0 ++ pat ++ (t ++ ((ts2.map (fun t => pat ++ t)).join ++ (pat ++ term)))
      from by simp [List.append_assoc]]
    rw [splitAll_append pat hne t0 _ h0]
    rw [ih (fun x hx => hall x (by simp [hx])) t (hall t (by simp))]
    simp

theorem splitAll_chain (pat : BStr) (hne : pat ≠ []) (term : BStr)
    (hterm : splitOnce term pat = none) (ts : List BStr)
    (hall : ∀ t ∈ ts, noEarlyOcc pat t) :
    splitAll ((ts.map (fun t => pat ++ t)).join ++ (pat ++ term)) pat =
      [] :: (ts ++ [term]) := by
  rw [show (ts.map (fun t => pat ++ t)).join ++ (pat ++ term) =
      [] ++ ((ts.map (fun t => pat ++ t)).join ++ (pat ++ term)) from by simp]
  exact splitAll_chain_from pat hne term hterm ts hall [] (by intro i hi; simp at hi)

theorem isPrefixOf_self_append (p x : BStr) : p.isPrefixOf (p ++ x) = true := by
  simp [List.isPrefixOf_iff_prefix]

theorem lineParse_nil :
    (splitOnce ([] : BStr) (bytes ": ")).map (fun kv => (toLower kv.1, kv.2)) = none := by
  decide

theorem lineParse_cd (V : BStr) :
    (splitOnce (bytes "Content-Disposition" ++ bytes ": " ++ V) (bytes ": ")).map
      (fun kv => (toLower kv.1, kv.2)) = some (bytes "content-disposition", V) := by
  rw [show bytes ": " = ([58, 32] : BStr) from by decide]
  rw [splitOnce_append [58, 32] (by simp) (bytes "Content-Disposition") V (by decide)]
  simp [show toLower (bytes "Content-Disposition") = bytes "content-disposition" from by decide]

theorem lineParse_ct (c : BStr) :
    (splitOnce (bytes "Content-Type" ++ bytes ": " ++ c) (bytes ": ")).map
      (fun kv => (toLower kv.1, kv.2)) = some (bytes "content-type", c) := by
  rw [show bytes ": " = ([58, 32] : BStr) from by decide]
  rw [splitOnce_append [58, 32] (by simp) (bytes "Content-Type") c (by decide)]
  simp [show toLower (bytes "Content-Type") = bytes "content-type" from by decide]

theorem tok_name_extract (name : BStr) :
    ((bytes "name=\"" ++ (name ++ [34])).take
        ((bytes "name=\"" ++ (name ++ [34])).length - 1)).drop 6 = name := by
  rw [show bytes "name=\"" ++ (name ++ [34]) = (bytes "name=\"" ++ name) ++ [34] from by simp]
  have h : ((bytes "name=\"" ++ name) ++ [34]).length - 1 = (bytes "name=\"" ++ name).length := by
    simp
  rw [h, List.take_left]
  rw [show (6 : Nat) = (bytes "name=\"").length from by decide]
  exact List.drop_left _ _

theorem tok_filename_extract (f : BStr) :
    ((bytes "filename=\"" ++ (f ++ [34])).take
        ((bytes "filename=\"" ++ (f ++ [34])).length - 1)).drop 10 = f := by
  rw [show bytes "filename=\"" ++ (f ++ [34]) = (bytes "filename=\"" ++ f) ++ [34] from by simp]
  have h : ((bytes "filename=\"" ++ f) ++ [34]).length - 1 = (bytes "filename=\"" ++ f).length := by
    simp
  rw [h, List.take_left]
  rw [show (10 : Nat) = (bytes "filename=\"").length from by decide]
  exact List.drop_left _ _

theorem trim_name_tok (name : BStr) :
    trim (32 :: (bytes "name=\"" ++ (name ++ [34]))) = bytes "name=\"" ++ (name ++ [34]) := by
  rw [trim_cons_ws 32 _ (by decide)]
  rw [show bytes "name=\"" ++ (name ++ [34]) = 110 :: ((bytes "ame=\"" ++ name) ++ [34]) from by
    rw [show bytes "name=\"" = 110 :: bytes "ame=\"" from by decide]; simp]
  exact trim_sandwich 110 34 _ (by decide) (by decide)

theorem trim_filename_tok (f : BStr) :
    trim (32 :: (bytes "filename=\"" ++ (f ++ [34]))) = bytes "filename=\"" ++ (f ++ [34]) := by
  rw [trim_cons_ws 32 _ (by decide)]
  rw [show bytes "filename=\"" ++ (f ++ [34]) = 102 :: ((bytes "ilename=\"" ++ f) ++ [34]) from by
    rw [show bytes "filename=\"" = 102 :: bytes "ilename=\"" from by decide]; simp]
  exact trim_sandwich 102 34 _ (by decide) (by decide)

theorem filename_pred_name_tok (name : BStr) :
    (bytes "filename=\"").isPrefixOf (bytes "name=\"" ++ (name ++ [34])) = false := by
  rw [show bytes "filename=\"" = 102 :: bytes "ilename=\"" from by decide,
     show bytes "name=\"" = 110 :: bytes "ame=\"" from by decide]
  simp only [List.cons_append]
  exact isPrefixOf_cons_ne 102 110 _ _ (by decide)

theorem name_pred_filename_tok (f : BStr) :
    (bytes "name=\"").isPrefixOf (bytes "filename=\"" ++ (f ++ [34])) = false := by
  rw [show bytes "name=\"" = 110 :: bytes "ame=\"" from by decide,
     show bytes "filename=\"" = 102 :: bytes "ilename=\"" from by decide]
  simp only [List.cons_append]
  exact isPrefixOf_cons_ne 110 102 _ _ (by decide)

theorem toks_noFn (name : BStr) (hn59 : (59 : Nat) ∉ name) :
    splitAll (bytes "form-data" ++ bytes ";" ++ (32 :: (bytes "name=\"" ++ (name ++ [34]))))
        (bytes ";") =
      [bytes "form-data", 32 :: (bytes "name=\"" ++ (name ++ [34]))] := by
  rw [show bytes ";" = ([59] : BStr) from by decide]
  rw [splitAll_append [59] (by simp) (bytes "form-data") _ (by decide)]
  rw [splitAll_single 59 [] _ (by
    simp [show ¬(59 : Nat) ∈ bytes "name=\"" from by decide, hn59])]

theorem toks_fn (name f : BStr) (hn59 : (59 : Nat) ∉ name) (hf59 : (59 : Nat) ∉ f) :
    splitAll (bytes "form-data" ++ bytes ";" ++
        ((32 :: (bytes "name=\"" ++ (name ++ [34]))) ++
          (bytes ";" ++ (32 :: (bytes "filename=\"" ++ (f ++ [34])))))) (bytes ";") =
      [bytes "form-data", 32 :: (bytes "name=\"" ++ (name ++ [34])),
        32 :: (bytes "filename=\"" ++ (f ++ [34]))] := by
  rw [show bytes ";" = ([59] : BStr) from by decide]
  rw [splitAll_append [59] (by simp) (bytes "form-data") _ (by decide)]
  rw [show (32 :: (bytes "name=\"" ++ (name ++ [34]))) ++
        ([59] ++ (32 :: (bytes "filename=\"" ++ (f ++ [34])))) =
      (32 :: (bytes "name=\"" ++ (name ++ [34]))) ++ [59] ++
        (32 :: (bytes "filename=\"" ++ (f ++ [34]))) from by simp]
  rw [splitAll_append [59] (by simp) _ _ (notin_noEarlyOcc 59 [] _ (by
    simp [show ¬(59 : Nat) ∈ bytes "name=\"" from by decide, hn59]))]
  rw [splitAll_single 59 [] _ (by
    simp [show ¬(59 : Nat) ∈ bytes "filename=\"" from by decide, hf59])]

theorem findct_one (V : BStr) :
    List.find? (fun e => e.1 == bytes "content-type") [(bytes "content-disposition", V)] =
      none := by
  simp [List.find?_cons,
    show ((bytes "content-disposition" : BStr) == bytes "content-type") = false from by decide]

theorem findct_two (V c : BStr) :
    List.find? (fun e => e.1 == bytes "content-type")
        [(bytes "content-disposition", V), (bytes "content-type", c)] =
      some (bytes "content-type", c) := by
  simp [List.find?_cons,
    show ((bytes "content-disposition" : BStr) == bytes "content-type") = false from by decide]

theorem findcd_one (V : BStr) :
    List.find? (fun e => e.1 == bytes "content-disposition") [(bytes "content-disposition", V)] =
      some (bytes "content-disposition", V) := by
  simp [List.find?_cons]

theorem findcd_two (V c : BStr) :
    List.find? (fun e => e.1 == bytes "content-disposition")
        [(bytes "content-disposition", V), (bytes "content-type", c)] =
      some (bytes "content-disposition", V) := by
  simp [List.find?_cons]

theorem findname_one (name : BStr) :
    List.find? (fun k => (bytes "name=\"").isPrefixOf k) [bytes "name=\"" ++ (name ++ [34])] =
      some (bytes "name=\"" ++ (name ++ [34])) := by
  simp [List.find?_cons, isPrefixOf_self_append]

theorem findname_two (name f : BStr) :
    List.find? (fun k => (bytes "name=\"").isPrefixOf k)
        [bytes "name=\"" ++ (name ++ [34]), bytes "filename=\"" ++ (f ++ [34])] =
      some (bytes "name=\"" ++ (name ++ [34])) := by
  simp [List.find?_cons, isPrefixOf_self_append]

theorem findfn_one (name : BStr) :
    List.find? (fun k2 => (bytes "filename=\"").isPrefixOf k2)
        [bytes "name=\"" ++ (name ++ [34])] = none := by
  simp [List.find?_cons, filename_pred_name_tok]

theorem findfn_two (name f : BStr) :
    List.find? (fun k2 => (bytes "filename=\"").isPrefixOf k2)
        [bytes "name=\"" ++ (name ++ [34]), bytes "filename=\"" ++ (f ++ [34])] =
      some (bytes "filename=\"" ++ (f ++ [34])) := by
  simp [List.find?_cons, filename_pred_name_tok, isPrefixOf_self_append]

theorem toksfull_noFn (name : BStr) (hn59 : (59 : Nat) ∉ name)
    (hfd2 : (32 :: (bytes "name=\"" ++ (name ++ [34]))) ≠ bytes "form-data") :
    ((splitAll (bytes "form-data" ++ bytes ";" ++ (32 :: (bytes "name=\"" ++ (name ++ [34]))))
        (bytes ";")).filter (fun t => t ≠ bytes "form-data")).map trim =
      [bytes "name=\"" ++ (name ++ [34])] := by
  rw [toks_noFn name hn59]
  simp [hfd2, trim_name_tok]

theorem toksfull_fn (name f : BStr) (hn59 : (59 : Nat) ∉ name) (hf59 : (59 : Nat) ∉ f)
    (hfd2 : (32 :: (bytes "name=\"" ++ (name ++ [34]))) ≠ bytes "form-data")
    (hfd3 : (32 :: (bytes "filename=\"" ++ (f ++ [34]))) ≠ bytes "form-data") :
    ((splitAll (bytes "form-data" ++ bytes ";" ++
        ((32 :: (bytes "name=\"" ++ (name ++ [34]))) ++
          (bytes ";" ++ (32 :: (bytes "filename=\"" ++ (f ++ [34]))))))
        (bytes ";")).filter (fun t => t ≠ bytes "form-data")).map trim =
      [bytes "name=\"" ++ (name ++ [34]), bytes "filename=\"" ++ (f ++ [34])] := by
  rw [toks_fn name f hn59 hf59]
  simp [hfd2, hfd3, trim_name_tok, trim_filename_tok]

theorem tok_filename_extract2 (f : BStr) :
    List.drop 10 (List.take ((bytes "filename=\"").length + f.length)
      (bytes "filename=\"" ++ (f ++ [34]))) = f := by
  rw [show bytes "filename=\"" ++ (f ++ [34]) = (bytes "filename=\"" ++ f) ++ [34] from by simp]
  rw [show (bytes "filename=\"").length + f.length = (bytes "filename=\"" ++ f).length
    from by simp]
  rw [List.take_left]
  rw [show (10 : Nat) = (bytes "filename=\"").length from by decide]
  exact List.drop_left _ _

theorem decodeSegment_encTail (p : Ez.Part)
    (hn13 : (13 : Nat) ∉ p.name) (hn59 : (59 : Nat) ∉ p.name)
    (hfn : match p.filename with
           | some f => (13 : Nat) ∉ f ∧ (59 : Nat) ∉ f
           | none => True)
    (hct : match p.content_type with
           | some c => (13 : Nat) ∉ c
           | none => True)
    (hno : noEarlyOcc (bytes "\r\n\r\n") (Ez.headOf p))
    (hutf : isUtf8 (Ez.headOf p) = true) :
    Ez.decodeSegment (Ez.encTail p) = some p := by
  obtain ⟨name, body, fn, ct⟩ := p
  simp only at hn13 hn59 hfn hct hno hutf
  have hsplit : splitOnce (Ez.encTail ⟨name, body, fn, ct⟩) (bytes "\r\n\r\n") =
      some (Ez.headOf ⟨name, body, fn, ct⟩, body.data) := by
    rw [encTail_decomp ⟨name, body, fn, ct⟩]
    have hno2 : noEarlyOcc ([13, 10, 13, 10] : BStr) (Ez.headOf ⟨name, body, fn, ct⟩) := by
      rw [show ([13, 10, 13, 10] : BStr) = bytes "\r\n\r\n" from by decide]
      exact hno
    rw [show bytes "\r\n\r\n" = ([13, 10, 13, 10] : BStr) from by decide]
    exact splitOnce_append [13, 10, 13, 10] (by simp) _ _ hno2
  unfold Ez.decodeSegment Ez.split_bytes_once
  simp only [hsplit]
  rw [if_pos hutf]
  have hfd2 : (32 :: (bytes "name=\"" ++ (name ++ [34]))) ≠ bytes "form-data" := by
    rw [show bytes "form-data" = 102 :: bytes "orm-data" from by decide]
    simp
  rcases fn with _ | f
  · rcases ct with _ | c
    · -- no filename, no content type
      have hH : Ez.headOf ⟨name, body, none, none⟩ =
          [] ++ [13, 10] ++
            (bytes "Content-Disposition" ++ bytes ": " ++
              (bytes "form-data" ++ bytes ";" ++ (32 :: (bytes "name=\"" ++ (name ++ [34]))))) := by
        simp only [Ez.headOf]
        simp only [show bytes "\r\nContent-Disposition: form-data; name=\"" =
            [13, 10] ++ bytes "Content-Disposition" ++ bytes ": " ++ bytes "form-data" ++
              bytes ";" ++ [32] ++ bytes "name=\"" from by decide,
          show bytes "\"" = ([34] : BStr) from by decide]
        simp [List.append_assoc]
      have h13cd : (13 : Nat) ∉ bytes "Content-Disposition" ++ bytes ": " ++
          (bytes "form-data" ++ bytes ";" ++ (32 :: (bytes "name=\"" ++ (name ++ [34])))) := by
        simp [show ¬(13 : Nat) ∈ bytes "Content-Disposition" from by decide,
          show ¬(13 : Nat) ∈ bytes ": " from by decide,
          show ¬(13 : Nat) ∈ bytes "form-data" from by decide,
          show ¬(13 : Nat) ∈ bytes ";" from by decide,
          show ¬(13 : Nat) ∈ bytes "name=\"" from by decide, hn13]
      have hlines : splitAll (Ez.headOf ⟨name, body, none, none⟩) (bytes "\r\n") =
          [[], bytes "Content-Disposition" ++ bytes ": " ++
            (bytes "form-data" ++ bytes ";" ++ (32 :: (bytes "name=\"" ++ (name ++ [34]))))] := by
        rw [hH, show bytes "\r\n" = ([13, 10] : BStr) from by decide]
        rw [splitAll_append [13, 10] (by simp) [] _ (by intro i hi; simp at hi)]
        rw [splitAll_single 13 [10] _ h13cd]
      have hhead : (splitAll (Ez.headOf ⟨name, body, none, none⟩) (bytes "\r\n")).filterMap
          (fun h => (splitOnce h (bytes ": ")).map (fun kv => (toLower kv.1, kv.2))) =
          [(bytes "content-disposition",
            bytes "form-data" ++ bytes ";" ++ (32 :: (bytes "name=\"" ++ (name ++ [34]))))] := by
        rw [hlines]
        simp only [List.filterMap_cons, lineParse_nil, lineParse_cd, List.filterMap_nil]
      simp only [hhead, findcd_one, findct_one, toksfull_noFn name hn59 hfd2, findname_one,
        findfn_one, tok_name_extract]
      simp
    · -- content type only
      have hc13 : (13 : Nat) ∉ c := hct
      have hH : Ez.headOf ⟨name, body, none, some c⟩ =
          [] ++ [13, 10] ++
            ((bytes "Content-Disposition" ++ bytes ": " ++
              (bytes "form-data" ++ bytes ";" ++ (32 :: (bytes "name=\"" ++ (name ++ [34]))))) ++
              [13, 10] ++ (bytes "Content-Type" ++ bytes ": " ++ c)) := by
        simp only [Ez.headOf]
        simp only [show bytes "\r\nContent-Disposition: form-data; name=\"" =
            [13, 10] ++ bytes "Content-Disposition" ++ bytes ": " ++ bytes "form-data" ++
              bytes ";" ++ [32] ++ bytes "name=\"" from by decide,
          show bytes "\"" = ([34] : BStr) from by decide,
          show bytes "\r\nContent-Type: " =
            [13, 10] ++ bytes "Content-Type" ++ bytes ": " from by decide]
        simp [List.append_assoc]
      have h13cd : (13 : Nat) ∉ bytes "Content-Disposition" ++ bytes ": " ++
          (bytes "form-data" ++ bytes ";" ++ (32 :: (bytes "name=\"" ++ (name ++ [34])))) := by
        simp [show ¬(13 : Nat) ∈ bytes "Content-Disposition" from by decide,
          show ¬(13 : Nat) ∈ bytes ": " from by decide,
          show ¬(13 : Nat) ∈ bytes "form-data" from by decide,
          show ¬(13 : Nat) ∈ bytes ";" from by decide,
          show ¬(13 : Nat) ∈ bytes "name=\"" from by decide, hn13]
      have h13ct : (13 : Nat) ∉ bytes "Content-Type" ++ bytes ": " ++ c := by
        simp [show ¬(13 : Nat) ∈ bytes "Content-Type" from by decide,
          show ¬(13 : Nat) ∈ bytes ": " from by decide, hc13]
      have hlines : splitAll (Ez.headOf ⟨name, body, none, some c⟩) (bytes "\r\n") =
          [[], bytes "Content-Disposition" ++ bytes ": " ++
            (bytes "form-data" ++ bytes ";" ++ (32 :: (bytes "name=\"" ++ (name ++ [34])))),
            bytes "Content-Type" ++ bytes ": " ++ c] := by
        rw [hH, show bytes "\r\n" = ([13, 10] : BStr) from by decide]
        rw [splitAll_append [13, 10] (by simp) [] _ (by intro i hi; simp at hi)]
        rw [splitAll_append [13, 10] (by simp) _ _ (notin_noEarlyOcc 13 [10] _ h13cd)]
        rw [splitAll_single 13 [10] _ h13ct]
      have hhead : (splitAll (Ez.headOf ⟨name, body, none, some c⟩) (bytes "\r\n")).filterMap
          (fun h => (splitOnce h (bytes ": ")).map (fun kv => (toLower kv.1, kv.2))) =
          [(bytes "content-disposition",
            bytes "form-data" ++ bytes ";" ++ (32 :: (bytes "name=\"" ++ (name ++ [34])))),
            (bytes "content-type", c)] := by
        rw [hlines]
        simp only [List.filterMap_cons, lineParse_nil, lineParse_cd, lineParse_ct,
          List.filterMap_nil]
      simp only [hhead, findcd_two, findct_two, toksfull_noFn name hn59 hfd2, findname_one,
        findfn_one, tok_name_extract]
      simp
  · obtain ⟨hf13, hf59⟩ := hfn
    have hfd3 : (32 :: (bytes "filename=\"" ++ (f ++ [34]))) ≠ bytes "form-data" := by
      rw [show bytes "form-data" = 102 :: bytes "orm-data" from by decide]
      simp
    rcases ct with _ | c
    · -- filename only
      have hH : Ez.headOf ⟨name, body, some f, none⟩ =
          [] ++ [13, 10] ++
            (bytes "Content-Disposition" ++ bytes ": " ++
              (bytes "form-data" ++ bytes ";" ++
                ((32 :: (bytes "name=\"" ++ (name ++ [34]))) ++
                  (bytes ";" ++ (32 :: (bytes "filename=\"" ++ (f ++ [34]))))))) := by
        simp only [Ez.headOf]
        simp only [show bytes "\r\nContent-Disposition: form-data; name=\"" =
            [13, 10] ++ bytes "Content-Disposition" ++ bytes ": " ++ bytes "form-data" ++
              bytes ";" ++ [32] ++ bytes "name=\"" from by decide,
          show bytes "\"" = ([34] : BStr) from by decide,
          show bytes "; filename=\"" = bytes ";" ++ [32] ++ bytes "filename=\"" from by decide]
        simp [List.append_assoc]
      have h13cd : (13 : Nat) ∉ bytes "Content-Disposition" ++ bytes ": " ++
          (bytes "form-data" ++ bytes ";" ++
            ((32 :: (bytes "name=\"" ++ (name ++ [34]))) ++
              (bytes ";" ++ (32 :: (bytes "filename=\"" ++ (f ++ [34])))))) := by
        simp [show ¬(13 : Nat) ∈ bytes "Content-Disposition" from by decide,
          show ¬(13 : Nat) ∈ bytes ": " from by decide,
          show ¬(13 : Nat) ∈ bytes "form-data" from by decide,
          show ¬(13 : Nat) ∈ bytes ";" from by decide,
          show ¬(13 : Nat) ∈ bytes "name=\"" from by decide,
          show ¬(13 : Nat) ∈ bytes "filename=\"" from by decide, hn13, hf13]
      have hlines : splitAll (Ez.headOf ⟨name, body, some f, none⟩) (bytes "\r\n") =
          [[], bytes "Content-Disposition" ++ bytes ": " ++
            (bytes "form-data" ++ bytes ";" ++
              ((32 :: (bytes "name=\"" ++ (name ++ [34]))) ++
                (bytes ";" ++ (32 :: (bytes "filename=\"" ++ (f ++ [34]))))))] := by
        rw [hH, show bytes "\r\n" = ([13, 10] : BStr) from by decide]
        rw [splitAll_append [13, 10] (by simp) [] _ (by intro i hi; simp at hi)]
        rw [splitAll_single 13 [10] _ h13cd]
      have hhead : (splitAll (Ez.headOf ⟨name, body, some f, none⟩) (bytes "\r\n")).filterMap
          (fun h => (splitOnce h (bytes ": ")).map (fun kv => (toLower kv.1, kv.2))) =
          [(bytes "content-disposition",
            bytes "form-data" ++ bytes ";" ++
              ((32 :: (bytes "name=\"" ++ (name ++ [34]))) ++
                (bytes ";" ++ (32 :: (bytes "filename=\"" ++ (f ++ [34]))))))] := by
        rw [hlines]
        simp only [List.filterMap_cons, lineParse_nil, lineParse_cd, List.filterMap_nil]
      simp only [hhead, findcd_one, findct_one, toksfull_fn name f hn59 hf59 hfd2 hfd3,
        findname_two, findfn_two, tok_name_extract, tok_filename_extract]
      simp [tok_filename_extract2]
    · -- filename and content type
      have hc13 : (13 : Nat) ∉ c := hct
      have hH : Ez.headOf ⟨name, body, some f, some c⟩ =
          [] ++ [13, 10] ++
            ((bytes "Content-Disposition" ++ bytes ": " ++
              (bytes "form-data" ++ bytes ";" ++
                ((32 :: (bytes "name=\"" ++ (name ++ [34]))) ++
                  (bytes ";" ++ (32 :: (bytes "filename=\"" ++ (f ++ [34]))))))) ++
              [13, 10] ++ (bytes "Content-Type" ++ bytes ": " ++ c)) := by
        simp only [Ez.headOf]
        simp only [show bytes "\r\nContent-Disposition: form-data; name=\"" =
            [13, 10] ++ bytes "Content-Disposition" ++ bytes ": " ++ bytes "form-data" ++
              bytes ";" ++ [32] ++ bytes "name=\"" from by decide,
          show bytes "\"" = ([34] : BStr) from by decide,
          show bytes "; filename=\"" = bytes ";" ++ [32] ++ bytes "filename=\"" from by decide,
          show bytes "\r\nContent-Type: " =
            [13, 10] ++ bytes "Content-Type" ++ bytes ": " from by decide]
        simp [List.append_assoc]
      have h13cd : (13 : Nat) ∉ bytes "Content-Disposition" ++ bytes ": " ++
          (bytes "form-data" ++ bytes ";" ++
            ((32 :: (bytes "name=\"" ++ (name ++ [34]))) ++
              (bytes ";" ++ (32 :: (bytes "filename=\"" ++ (f ++ [34])))))) := by
        simp [show ¬(13 : Nat) ∈ bytes "Content-Disposition" from by decide,
          show ¬(13 : Nat) ∈ bytes ": " from by decide,
          show ¬(13 : Nat) ∈ bytes "form-data" from by decide,
          show ¬(13 : Nat) ∈ bytes ";" from by decide,
          show ¬(13 : Nat) ∈ bytes "name=\"" from by decide,
          show ¬(13 : Nat) ∈ bytes "filename=\"" from by decide, hn13, hf13]
      have h13ct : (13 : Nat) ∉ bytes "Content-Type" ++ bytes ": " ++ c := by
        simp [show ¬(13 : Nat) ∈ bytes "Content-Type" from by decide,
          show ¬(13 : Nat) ∈ bytes ": " from by decide, hc13]
      have hlines : splitAll (Ez.headOf ⟨name, body, some f, some c⟩) (bytes "\r\n") =
          [[], bytes "Content-Disposition" ++ bytes ": " ++
            (bytes "form-data" ++ bytes ";" ++
              ((32 :: (bytes "name=\"" ++ (name ++ [34]))) ++
                (bytes ";" ++ (32 :: (bytes "filename=\"" ++ (f ++ [34])))))),
            bytes "Content-Type" ++ bytes ": " ++ c] := by
        rw [hH, show bytes "\r\n" = ([13, 10] : BStr) from by decide]
        rw [splitAll_append [13, 10] (by simp) [] _ (by intro i hi; simp at hi)]
        rw [splitAll_append [13, 10] (by simp) _ _ (notin_noEarlyOcc 13 [10] _ h13cd)]
        rw [splitAll_single 13 [10] _ h13ct]
      have hhead : (splitAll (Ez.headOf ⟨name, body, some f, some c⟩) (bytes "\r\n")).filterMap
          (fun h => (splitOnce h (bytes ": ")).map (fun kv => (toLower kv.1, kv.2))) =
          [(bytes "content-disposition",
            bytes "form-data" ++ bytes ";" ++
              ((32 :: (bytes "name=\"" ++ (name ++ [34]))) ++
                (bytes ";" ++ (32 :: (bytes "filename=\"" ++ (f ++ [34])))))),
            (bytes "content-type", c)] := by
        rw [hlines]
        simp only [List.filterMap_cons, lineParse_nil, lineParse_cd, lineParse_ct,
          List.filterMap_nil]
      simp only [hhead, findcd_two, findct_two, toksfull_fn name f hn59 hf59 hfd2 hfd3,
        findname_two, findfn_two, tok_name_extract, tok_filename_extract]
      simp [tok_filename_extract2]

theorem encTail_ne_term (p : Ez.Part) : Ez.encTail p ≠ bytes "--\r\n\r\n" := by
  unfold Ez.encTail
  rw [show bytes "\r\nContent-Disposition: form-data; name=\"" =
      13 :: bytes "\nContent-Disposition: form-data; name=\"" from by decide,
     show bytes "--\r\n\r\n" = 45 :: bytes "-\r\n\r\n" from by decide]
  simp only [List.cons_append]
  intro h
  injection h with h1 _
  exact absurd h1 (by decide)

theorem term_split_none (B : BStr) (hBne : B ≠ []) (hB13 : (13 : Nat) ∉ B) :
    splitOnce (bytes "--\r\n") (bytes "--" ++ B) = none := by
  cases B with
  | nil => exact absurd rfl hBne
  | cons b B2 =>
    have hb : (b == 13) = false := by
      simp only [beq_eq_false_iff_ne]
      intro h
      subst h
      exact hB13 (by simp)
    rw [show bytes "--\r\n" = ([45, 45, 13, 10] : BStr) from by decide,
       show bytes "--" ++ (b :: B2) = 45 :: 45 :: b :: B2 from by
         rw [show bytes "--" = ([45, 45] : BStr) from by decide]; rfl]
    simp [splitOnce, List.isPrefixOf, hb]

set_option maxHeartbeats 2000000 in
/-- C6 (amended): `as_multipart` with the same boundary inverts
`from_multipart` on every part list whose names, filenames and content
types are free of CR and of the `;` token separator, whose encoded parts
contain no premature occurrence of the `--boundary` marker or of the
blank-line separator inside the header block, and whose header block is
valid UTF-8 (in Rust these fields are `String`s, so UTF-8 validity is the
type invariant); the boundary is nonempty and CR-free.  The claim's bare
no-boundary-collision precondition is not sufficient: see the
counterexample. -/
theorem c6_multipart_roundtrip (B : BStr) (P : List Ez.Part)
    (hBne : B ≠ []) (hB13 : (13 : Nat) ∉ B)
    (hparts : ∀ p ∈ P,
      ((13 : Nat) ∉ p.name ∧ (59 : Nat) ∉ p.name) ∧
      (match p.filename with
       | some f => (13 : Nat) ∉ f ∧ (59 : Nat) ∉ f
       | none => True) ∧
      (match p.content_type with
       | some c => (13 : Nat) ∉ c
       | none => True) ∧
      noEarlyOcc (bytes "--" ++ B) (Ez.encTail p) ∧
      noEarlyOcc (bytes "\r\n\r\n") (Ez.headOf p) ∧
      isUtf8 (Ez.headOf p) = true) :
    Ez.Body.as_multipart (Ez.Body.from_multipart P B) B = P := by
  have hpatne : (bytes "--" ++ B) ≠ [] := by
    rw [show bytes "--" = ([45, 45] : BStr) from by decide]
    simp
  have hterm := term_split_none B hBne hB13
  unfold Ez.Body.as_multipart Ez.Body.from_multipart Ez.split_bytes
  have hdata : (P.map (Ez.encPart B)).join ++ bytes "--" ++ B ++ bytes "--\r\n" =
      ((P.map Ez.encTail).map (fun t => bytes "--" ++ B ++ t)).join ++
        ((bytes "--" ++ B) ++ bytes "--\r\n") := by
    rw [List.map_map]
    rw [show ((fun t => bytes "--" ++ B ++ t) ∘ Ez.encTail) = Ez.encPart B from by
      funext p
      rw [Function.comp_apply, Ez.encPart]]
    simp [List.append_assoc]
  rw [hdata]
  rw [splitAll_chain (bytes "--" ++ B) hpatne (bytes "--\r\n") hterm (P.map Ez.encTail)
    (by
      intro t ht
      rcases List.mem_map.mp ht with ⟨p, hp, rfl⟩
      exact (hparts p hp).2.2.2.1)]
  have hfilter : (([] : BStr) :: ((P.map Ez.encTail) ++ [bytes "--\r\n"])).filter
      (fun o => o ≠ bytes "--\r\n\r\n") =
      ([] : BStr) :: ((P.map Ez.encTail) ++ [bytes "--\r\n"]) := by
    apply List.filter_eq_self.mpr
    intro a ha
    rcases List.mem_cons.mp ha with rfl | ha2
    · decide
    · rcases List.mem_append.mp ha2 with ha3 | ha3
      · rcases List.mem_map.mp ha3 with ⟨p, _, rfl⟩
        exact decide_eq_true (encTail_ne_term p)
      · rcases List.mem_singleton.mp ha3 with rfl
        decide
  rw [hfilter]
  have hnil : Ez.decodeSegment [] = none := by decide
  have hjunk : Ez.decodeSegment (bytes "--\r\n") = none := by decide
  simp only [List.filterMap_cons, hnil]
  rw [List.filterMap_append]
  rw [List.filterMap_map]
  rw [show (Ez.decodeSegment ∘ Ez.encTail) =
      (fun p => Ez.decodeSegment (Ez.encTail p)) from rfl]
  rw [filterMap_id_of _ P (fun p hp => decodeSegment_encTail p
      (hparts p hp).1.1 (hparts p hp).1.2 (hparts p hp).2.1 (hparts p hp).2.2.1
      (hparts p hp).2.2.2.2.1 (hparts p hp).2.2.2.2.2)]
  simp [hjunk]

/-- Counterexample for C6 as stated: the part name `a;b` contains no
occurrence of the boundary string `B` anywhere in the part, yet the
decoder splits the Content-Disposition value at the `;` inside the name
and fails to reproduce the part. -/
theorem c6_counterexample :
    Ez.Body.as_multipart
        (Ez.Body.from_multipart [⟨bytes "a;b", ⟨bytes "hi"⟩, none, none⟩] (bytes "B"))
        (bytes "B") ≠
      [⟨bytes "a;b", ⟨bytes "hi"⟩, none, none⟩] := by
  decide

/-- Witness for C6 at the claim's own example: one part named `file` with
filename `a.txt`, content type `text/plain` and body `hi`, boundary
`boundary123`. -/
theorem c6_witness :
    Ez.Body.as_multipart
        (Ez.Body.from_multipart
          [⟨bytes "file", ⟨bytes "hi"⟩, some (bytes "a.txt"), some (bytes "text/plain")⟩]
          (bytes "boundary123"))
        (bytes "boundary123") =
      [⟨bytes "file", ⟨bytes "hi"⟩, some (bytes "a.txt"), some (bytes "text/plain")⟩] :=
  c6_multipart_roundtrip (bytes "boundary123")
    [⟨bytes "file", ⟨bytes "hi"⟩, some (bytes "a.txt"), some (bytes "text/plain")⟩]
    (by decide) (by decide)
    (by
      intro p hp
      have hpe := List.mem_singleton.mp hp
      subst hpe
      exact ⟨by decide, by decide, by decide, by decide, by decide, by decide⟩)
